import Mathlib

/-!
# HukmeeVendor: offer popup (`popupcard.jsx`) and nearby-hub poller (`nearby.jsx`)

A shallow embedding of the two React components.  Component state is a record,
every handler is a function from the state to the new state and the list of
observable effects it performs, and an `async` handler is split at each `await`:
the synchronous prefix runs when the handler is invoked and the remainder is kept
as a suspended frame that runs when the awaited remote call settles.
-/

namespace HukmeeVendor

/-- A scalar as it is decoded from a backend response; numbers are kept as
integers. -/
inductive Json where
  | null
  | bool (b : Bool)
  | num (n : Int)
  | str (s : String)
  deriving DecidableEq, Repr

/-- JavaScript truthiness of a property value; `none` is a missing property (`undefined`). -/
def truthy : Option Json → Bool
  | none => false
  | some .null => false
  | some (.bool b) => b
  | some (.num n) => n != 0
  | some (.str s) => s != ""

namespace Popupcard

/-- Props and ambient values of `Popupcard`: `UserID` is
`localStorage.getItem("userPhone")` (line 29), `onClose` tells whether the caller
passed an `onClose` callback (every call site is `onClose?.()`). -/
structure Props where
  UserID : Option String
  onClose : Bool
  deriving DecidableEq, Repr

/-- Truthiness of `UserID` (`if (!UserID) return`, line 34). -/
def Props.hasUser (p : Props) : Bool :=
  match p.UserID with
  | none => false
  | some u => u != ""

/-- A lead as returned by `ShowLeads`; only the fields the component reads. -/
structure Lead where
  OrderID : Option Json
  CustomerName : Option Json
  deriving DecidableEq, Repr

/-- The remote operations of `popupcard.jsx` with their arguments. -/
inductive Call where
  | ShowLeads (userId : Option String) (status : String)
  | UpdateOrders (orderId : Option Json) (status : String) (vendorPhone : Option String)
  | AcceptLeads (orderId : Option Json) (userId : Option String)
  | DeclineLeads (orderId : Option Json) (userId : Option String)
  deriving DecidableEq, Repr

/-- Observable effects: a remote call being issued, `alert(msg)`,
`window.location.reload()` and the statement `onClose?.()`. -/
inductive Effect where
  | call (c : Call)
  | alert (msg : String)
  | reload
  | onClose
  deriving DecidableEq, Repr

/-- A value a remote call resolves with. -/
inductive Value where
  | nullish
  | leads (l : List Lead)
  | object (message : Option Json)
  deriving DecidableEq, Repr

/-- How an awaited remote call settles: the promise rejects or resolves. -/
inductive Outcome where
  | rejected
  | resolved (v : Value)
  deriving DecidableEq, Repr

/-- A suspended `async` frame, named after the `await` it waits at. -/
inductive Await where
  | fetchLead
  | acceptUpdate (lead : Lead)
  | acceptAccept (lead : Lead)
  | decline
  | autoDecline
  deriving DecidableEq, Repr

/-- Component state.  `interval` is the live interval held in `intervalRef`
together with the lead its callback closed over; `inflight` are the suspended
frames; `reloaded` and `closed` record that the page was reloaded or that the
caller closed the popup. -/
structure Session where
  timer : Int
  pendingLead : Option Lead
  loading : Bool
  interval : Option Lead
  inflight : List Await
  reloaded : Bool
  closed : Bool
  deriving DecidableEq, Repr

/-- The events a mounted popup reacts to. -/
inductive Event where
  | tick
  | acceptIntent
  | declineIntent
  | settle (i : Nat) (o : Outcome)
  deriving DecidableEq, Repr

/-- The check `res?.message === "Lead Declined Successfully"` (lines 81, 125). -/
def confirmed : Value → Bool
  | .object (some (.str m)) => m == "Lead Declined Successfully"
  | _ => false

/-- The check `leads && leads.length > 0` followed by `leads[0]` (lines 39-40). -/
def firstLead : Value → Option Lead
  | .leads (l :: _) => some l
  | _ => none

/-- The statement `onClose?.()`: when the caller passed the callback the popup is
closed ("No lead → close popup", line 44), which unmounts it and runs the effect
cleanup `clearInterval(intervalRef.current)` (line 72). -/
def close (p : Props) (s : Session) : Session :=
  if p.onClose then { s with closed := true, interval := none } else s

/-- The statement `window.location.reload()`: the page and its timers are gone. -/
def reload (s : Session) : Session :=
  { s with reloaded := true, interval := none }

/-- Component mount: state initialisers (lines 24-27) and the fetch effect up to
`await ShowLeads(UserID, "Pending")` (lines 33-38). -/
def mount (p : Props) : Session × List Effect :=
  let s : Session :=
    { timer := 60, pendingLead := none, loading := false, interval := none,
      inflight := [], reloaded := false, closed := false }
  if p.hasUser then
    ({ s with inflight := [.fetchLead] }, [.call (.ShowLeads p.UserID "Pending")])
  else (s, [])

/-- Synchronous prefix of `autoDecline` (lines 75-80), run with the lead the
interval callback closed over. -/
def autoDecline (p : Props) (lead : Lead) (s : Session) : Session × List Effect :=
  if !truthy lead.OrderID then (s, [])
  else
    ({ s with loading := true, inflight := s.inflight ++ [.autoDecline] },
     [.call (.DeclineLeads lead.OrderID p.UserID)])

/-- The interval callback `setTimer((prev) => ...)` (lines 61-70). -/
def tick (p : Props) (lead : Lead) (s : Session) : Session × List Effect :=
  if s.timer ≤ 1 then
    let r := autoDecline p lead { s with interval := none }
    ({ r.1 with timer := 0 }, r.2)
  else ({ s with timer := s.timer - 1 }, [])

/-- Synchronous prefix of `handleAccept` (lines 93-105). -/
def handleAccept (p : Props) (s : Session) : Session × List Effect :=
  match s.pendingLead with
  | none => (s, [])
  | some lead =>
    ({ s with interval := none, timer := 0, loading := true,
              inflight := s.inflight ++ [.acceptUpdate lead] },
     [.call (.UpdateOrders lead.OrderID "Done" p.UserID)])

/-- Synchronous prefix of `handleDecline` (lines 117-124). -/
def handleDecline (p : Props) (s : Session) : Session × List Effect :=
  match s.pendingLead with
  | none => (s, [])
  | some lead =>
    ({ s with interval := none, timer := 0, loading := true,
              inflight := s.inflight ++ [.decline] },
     [.call (.DeclineLeads lead.OrderID p.UserID)])

/-- The remainder of an `async` function after its `await` settles. -/
def resume (p : Props) (a : Await) (o : Outcome) (s : Session) : Session × List Effect :=
  match a, o with
  -- fetchLead, lines 39-49; a changed `pendingLead` re-runs the timer effect (lines 56-73)
  | .fetchLead, .resolved v =>
    match firstLead v with
    | some l => ({ s with pendingLead := some l, timer := 60, interval := some l }, [])
    | none =>
      (close p { s with pendingLead := none,
                        interval := if s.pendingLead.isSome then none else s.interval },
       [.onClose])
  | .fetchLead, .rejected => (close p s, [.onClose])
  -- handleAccept, lines 107-114
  | .acceptUpdate lead, .resolved _ =>
    ({ s with inflight := s.inflight ++ [.acceptAccept lead] },
     [.call (.AcceptLeads lead.OrderID p.UserID)])
  | .acceptUpdate _, .rejected =>
    ({ close p s with loading := false }, [.alert "Accept failed", .onClose])
  | .acceptAccept _, .resolved _ => ({ reload s with loading := false }, [.reload])
  | .acceptAccept _, .rejected =>
    ({ close p s with loading := false }, [.alert "Accept failed", .onClose])
  -- handleDecline, lines 125-134
  | .decline, .resolved v =>
    if confirmed v then
      ({ close p (reload s) with loading := false }, [.alert "Declined", .reload, .onClose])
    else ({ close p s with loading := false }, [.onClose])
  | .decline, .rejected =>
    ({ close p s with loading := false }, [.alert "Decline failed", .onClose])
  -- autoDecline, lines 81-90
  | .autoDecline, .resolved v =>
    if confirmed v then ({ reload s with loading := false }, [.reload])
    else ({ close p s with loading := false }, [.onClose])
  | .autoDecline, .rejected => ({ close p s with loading := false }, [.onClose])

/-- One event.  A tick is delivered while an interval is installed; the two
buttons exist while the popup is rendered (`if (!pendingLead) return null`,
line 138), is not closed, and are enabled while `loading` is false
(`disabled={loading}`, lines 189 and 200); a settled call resumes its frame
unless the page was reloaded. -/
def step (p : Props) (s : Session) : Event → Session × List Effect
  | .tick =>
    match s.interval with
    | some lead => if s.reloaded || s.closed then (s, []) else tick p lead s
    | none => (s, [])
  | .acceptIntent =>
    if s.pendingLead.isSome && !s.loading && !s.reloaded && !s.closed then handleAccept p s
    else (s, [])
  | .declineIntent =>
    if s.pendingLead.isSome && !s.loading && !s.reloaded && !s.closed then handleDecline p s
    else (s, [])
  | .settle i o =>
    if s.reloaded then (s, [])
    else
      match s.inflight[i]? with
      | some a => resume p a o { s with inflight := s.inflight.eraseIdx i }
      | none => (s, [])

/-- Run a sequence of events, collecting every effect in order. -/
def run (p : Props) (s : Session) : List Event → Session × List Effect
  | [] => (s, [])
  | e :: es =>
    let r := step p s e
    let q := run p r.1 es
    (q.1, r.2 ++ q.2)

/-- The remote calls among a list of effects. -/
def calls : List Effect → List Call
  | [] => []
  | .call c :: fx => c :: calls fx
  | _ :: fx => calls fx

/-- Whether the event is an accept intent, a decline intent or a clock tick. -/
def Event.isTrigger : Event → Bool
  | .tick => true
  | .acceptIntent => true
  | .declineIntent => true
  | .settle _ _ => false

/-- Number of intents and ticks of the sequence that issue a remote call, that
is, that start a resolution path. -/
def triggers (p : Props) (s : Session) : List Event → Nat
  | [] => 0
  | e :: es =>
    (if e.isTrigger && !(calls (step p s e).2).isEmpty then 1 else 0)
      + triggers p (step p s e).1 es

/-- A live offer: the lead is held, its clock runs with a value in `1..60`, and no
resolution has started. -/
def Live (s : Session) (lead : Lead) : Prop :=
  s.pendingLead = some lead ∧ s.interval = some lead ∧ 1 ≤ s.timer ∧ s.timer ≤ 60 ∧
  s.loading = false ∧ s.inflight = [] ∧ s.reloaded = false ∧ s.closed = false

instance (s : Session) (lead : Lead) : Decidable (Live s lead) := by
  unfold Live; infer_instance

/-- The state right after a lead was fetched: live with the clock at 60. -/
def liveAt (lead : Lead) : Session :=
  { timer := 60, pendingLead := some lead, loading := false, interval := some lead,
    inflight := [], reloaded := false, closed := false }

/-- The state in which the automatic decline call is in flight. -/
def autoDeclining (lead : Lead) : Session :=
  { timer := 0, pendingLead := some lead, loading := true, interval := none,
    inflight := [.autoDecline], reloaded := false, closed := false }

/-- Whether a settled `DeclineLeads` call counts as a confirmed decline. -/
def Outcome.confirms : Outcome → Bool
  | .rejected => false
  | .resolved v => confirmed v

/-- The effects of the manual decline path for a given outcome of the call. -/
def manualDeclineEffects (p : Props) (s : Session) (o : Outcome) : List Effect :=
  (run p s [.declineIntent, .settle 0 o]).2

/-- The effects of the automatic decline path for a given outcome of the call: the
clock runs down from its current value with no user intent, then the call settles. -/
def autoDeclineEffects (p : Props) (s : Session) (o : Outcome) : List Effect :=
  (run p s (List.replicate s.timer.toNat .tick ++ [.settle 0 o])).2

/-- No resolution path has started: the lead is shown with its buttons enabled. -/
def Unresolved (s : Session) : Prop :=
  s.pendingLead.isSome = true ∧ s.loading = false ∧ s.inflight = [] ∧
  s.reloaded = false ∧ s.closed = false

/-- A resolution path has started: the clock is stopped, and the buttons are
disabled, or the page is reloaded, or the popup is closed. -/
def Resolving (s : Session) : Prop :=
  s.interval = none ∧ Await.fetchLead ∉ s.inflight ∧
  (s.loading = true ∨ s.reloaded = true ∨ s.closed = true)

end Popupcard

namespace Nearby

/-- Modelled from the spec: the record type returned by `NearBy` is not part of the
component; per the data model a hub record is a flat record of scalar fields
(`LoginID`, `hubName`, `Location`, `DistanceKm`, `InventoryID`, `ProductName`,
`Quantity`, ...), kept here as its ordered list of key/value pairs. -/
abbrev HubRecord := List (String × Json)

/-! ### `JSON.stringify` on lists of hub records -/

/-- Hexadecimal digit, lower case. -/
def hexDigit (n : Nat) : Char :=
  if n < 10 then Char.ofNat (48 + n) else Char.ofNat (87 + n)

/-- The escape sequence `JSON.stringify` writes after the backslash for the
character with code `n`, if it escapes that character: the quote, the backslash,
the five short escapes and `\u00xx` for the other control characters. -/
def escapeCode (n : Nat) : Option (List Char) :=
  if n = 34 then some ['\x22']
  else if n = 92 then some ['\x5c']
  else if n = 8 then some ['b']
  else if n = 12 then some ['f']
  else if n = 10 then some ['n']
  else if n = 13 then some ['r']
  else if n = 9 then some ['t']
  else if n < 32 then some ['u', '0', '0', hexDigit (n / 16), hexDigit (n % 16)]
  else none

/-- One character inside a JSON string literal. -/
def escapeChar (c : Char) : List Char :=
  match escapeCode c.toNat with
  | some code => '\x5c' :: code
  | none => [c]

/-- The body of a JSON string literal. -/
def escapeAll : List Char → List Char
  | [] => []
  | c :: cs => escapeChar c ++ escapeAll cs

/-- A JSON string literal. -/
def quote (s : String) : List Char :=
  '\x22' :: (escapeAll s.toList ++ ['\x22'])

/-- Decimal digits of a natural number, the text `JSON.stringify` writes for an
integer. -/
def natText (n : Nat) : List Char :=
  if n = 0 then ['0'] else ((Nat.digits 10 n).reverse.map Nat.digitChar)

/-- Decimal text of an integer. -/
def intText : Int → List Char
  | .ofNat n => natText n
  | .negSucc n => '-' :: natText (n + 1)

/-- Text of a scalar. -/
def valueText : Json → List Char
  | .null => ['n', 'u', 'l', 'l']
  | .bool true => ['t', 'r', 'u', 'e']
  | .bool false => ['f', 'a', 'l', 's', 'e']
  | .num n => intText n
  | .str s => quote s

/-- One `"key":value` member. -/
def memberText (m : String × Json) : List Char :=
  quote m.1 ++ ':' :: valueText m.2

/-- What follows the first member of an object: the remaining members, each after
a comma, and the closing brace. -/
def membersTail : List (String × Json) → List Char
  | [] => ['\x7d']
  | m :: ms => ',' :: (memberText m ++ membersTail ms)

/-- Text of one hub record. -/
def recordText : HubRecord → List Char
  | [] => ['\x7b', '\x7d']
  | m :: ms => '\x7b' :: (memberText m ++ membersTail ms)

/-- What follows the first element of an array. -/
def recordsTail : List HubRecord → List Char
  | [] => [']']
  | r :: rs => ',' :: (recordText r ++ recordsTail rs)

/-- `JSON.stringify` of an array of hub records. -/
def stringify : List HubRecord → String
  | [] => String.mk ['[', ']']
  | r :: rs => String.mk ('[' :: (recordText r ++ recordsTail rs))

/-- Whether the escape codes of `n` and `m` respect prefix-freeness. -/
def codesApart (n m : Nat) : Bool :=
  match escapeCode n, escapeCode m with
  | some a, some b => !(a.isPrefixOf b) || n == m
  | _, _ => true

/-- A character that ends a scalar inside an object. -/
def isDelim (c : Char) : Bool := c == ',' || c == '\x7d'

/-- A character that may occur in the text of a scalar other than a string. -/
def isPlain (c : Char) : Bool := !(c == ',' || c == '\x7d' || c == '\x22')

/-! ### `String.prototype.trim` -/

/-- White space and line terminators removed by `trim`. -/
def isJsSpace (c : Char) : Bool :=
  c.toNat ∈ [9, 10, 11, 12, 13, 32, 160, 5760, 8232, 8233, 8239, 8287, 12288, 65279]
    || (8192 ≤ c.toNat && c.toNat ≤ 8202)

/-- `s.trim()`. -/
def jsTrim (s : String) : String :=
  String.mk (((s.toList.dropWhile isJsSpace).reverse.dropWhile isJsSpace).reverse)

/-! ### The component -/

/-- The held `vendorList`: its value, and `rev`, the number of times the state was
given a new array reference (each one is a redraw signal). -/
structure Held where
  value : List HubRecord
  rev : Nat
  deriving DecidableEq, Repr

/-- The values a `fetchVendors` closure captured (`useCallback` deps, line 103);
coordinates are kept in units of 1e-4 degree. -/
structure Closure where
  searchTerm : String
  lat : Option Int
  lon : Option Int
  deriving DecidableEq, Repr

/-- The remote operation of the polling loop. -/
inductive Call where
  | NearBy (ProductName : String) (lat lon : Int)
  deriving DecidableEq, Repr

/-- Observable effects of the polling loop. -/
inductive Effect where
  | call (c : Call)
  | consoleError
  deriving DecidableEq, Repr

/-- How `await NearBy(...)` settles; `resolved none` is a falsy value. -/
inductive Outcome where
  | rejected
  | resolved (data : Option (List HubRecord))
  deriving DecidableEq, Repr

/-- Component state; `interval` is the installed 8 s interval with the closure it
calls, `inflight` the suspended `fetchVendors` frames, each tagged with the closure
that issued the call. -/
structure Poller where
  vendorList : Held
  loading : Bool
  searchTerm : String
  inputValue : String
  lat : Option Int
  lon : Option Int
  interval : Option Closure
  inflight : List Closure
  deriving DecidableEq, Repr

/-- The events the screen reacts to. -/
inductive Event where
  | input (v : String)
  | search
  | located (lat lon : Int)
  | tick
  | settle (i : Nat) (o : Outcome)
  deriving DecidableEq, Repr

/-- `setVendorList([])`: a new empty array. -/
def clearList (h : Held) : Held :=
  { value := [], rev := h.rev + 1 }

/-- The updater passed to `setVendorList` (lines 91-96). -/
def updater (prev : Held) (data : Option (List HubRecord)) : Held :=
  if stringify prev.value = stringify (data.getD []) then prev
  else { value := data.getD [], rev := prev.rev + 1 }

/-- Synchronous prefix of `fetchVendors` (lines 76-88). -/
def fetchVendors (c : Closure) (s : Poller) : Poller × List Effect :=
  match c.lat, c.lon with
  | some la, some lo =>
    if jsTrim c.searchTerm = "" then ({ s with vendorList := clearList s.vendorList }, [])
    else
      ({ s with loading := true, inflight := s.inflight ++ [c] },
       [.call (.NearBy (jsTrim c.searchTerm) la lo)])
  | _, _ => ({ s with vendorList := clearList s.vendorList }, [])

/-- The remainder of `fetchVendors` after `await NearBy(...)` (lines 90-102). -/
def resume (o : Outcome) (s : Poller) : Poller × List Effect :=
  match o with
  | .resolved data => ({ s with vendorList := updater s.vendorList data, loading := false }, [])
  | .rejected =>
    ({ s with vendorList := clearList s.vendorList, loading := false }, [.consoleError])

/-- The polling effect (lines 106-113), run when `fetchVendors` changes: the cleanup
of the previous run clears its interval, the first load is issued, and an interval
is installed unless the trimmed term is empty. -/
def pollingEffect (s : Poller) : Poller × List Effect :=
  let c : Closure := { searchTerm := s.searchTerm, lat := s.lat, lon := s.lon }
  let r := fetchVendors c { s with interval := none }
  if jsTrim s.searchTerm = "" then r else ({ r.1 with interval := some c }, r.2)

/-- Mount: state initialisers (lines 48-53) and the first run of the polling effect. -/
def mount : Poller × List Effect :=
  pollingEffect
    { vendorList := { value := [], rev := 0 }, loading := false, searchTerm := "",
      inputValue := "", lat := none, lon := none, interval := none, inflight := [] }

/-- One event: typing (line 179), `handleSearch` (lines 116-118), the geolocation
callbacks (lines 59-71), the interval firing, a call settling.  A state setter
given the value already held does not re-run the effect. -/
def step (s : Poller) : Event → Poller × List Effect
  | .input v => ({ s with inputValue := v }, [])
  | .search =>
    if jsTrim s.inputValue = s.searchTerm then (s, [])
    else pollingEffect { s with searchTerm := jsTrim s.inputValue }
  | .located la lo =>
    if s.lat = some la ∧ s.lon = some lo then (s, [])
    else pollingEffect { s with lat := some la, lon := some lo }
  | .tick =>
    match s.interval with
    | some c => fetchVendors c s
    | none => (s, [])
  | .settle i o =>
    match s.inflight[i]? with
    | some _ => resume o { s with inflight := s.inflight.eraseIdx i }
    | none => (s, [])

/-- Run a sequence of events, collecting every effect in order. -/
def run (s : Poller) : List Event → Poller × List Effect
  | [] => (s, [])
  | e :: es =>
    let r := step s e
    let q := run r.1 es
    (q.1, r.2 ++ q.2)

/-- The remote calls among a list of effects. -/
def calls : List Effect → List Call
  | [] => []
  | .call c :: fx => c :: calls fx
  | _ :: fx => calls fx

/-- The trimmed term is empty after every event of the sequence. -/
def StaysEmpty (s : Poller) : List Event → Prop
  | [] => True
  | e :: es => jsTrim (step s e).1.searchTerm = "" ∧ StaysEmpty (step s e).1 es

instance (s : Poller) (es : List Event) : Decidable (StaysEmpty s es) := by
  induction es generalizing s with
  | nil => exact isTrue trivial
  | cons e es ih => unfold StaysEmpty; exact @instDecidableAnd _ _ _ (ih _)

/-- An installed interval was created for the term now held, and that term is not
blank. -/
def IntervalFresh (s : Poller) : Prop :=
  ∀ c, s.interval = some c → c.searchTerm = s.searchTerm ∧ jsTrim s.searchTerm ≠ ""

end Nearby

namespace Popupcard

/-! ## Popupcard: basic facts about `run` -/

theorem run_append (p : Props) (s : Session) (a b : List Event) :
    run p s (a ++ b) = ((run p (run p s a).1 b).1, (run p s a).2 ++ (run p (run p s a).1 b).2) := by
  induction a generalizing s with
  | nil => simp [run]
  | cons e es ih => simp [run, ih, List.append_assoc]

theorem calls_append (a b : List Effect) : calls (a ++ b) = calls a ++ calls b := by
  induction a with
  | nil => simp [calls]
  | cons e es ih => cases e <;> simp [calls, ih]

/-- While the clock runs and more than `k` seconds remain, `k` ticks only count down. -/
theorem run_ticks (p : Props) (lead : Lead) (k : Nat) (s : Session)
    (hi : s.interval = some lead) (hr : s.reloaded = false) (hc : s.closed = false)
    (hk : (k : Int) < s.timer) :
    run p s (List.replicate k .tick) = ({ s with timer := s.timer - k }, []) := by
  induction k generalizing s with
  | zero => simp [run]
  | succ k ih =>
    have h1 : ¬ s.timer ≤ 1 := by push_cast at hk; omega
    have hstep : step p s .tick = ({ s with timer := s.timer - 1 }, []) := by
      simp [step, hi, hr, hc, tick, h1]
    simp only [List.replicate_succ, run, hstep]
    have hk2 : (k : Int) < s.timer - 1 := by push_cast at hk; omega
    rw [ih { s with timer := s.timer - 1 } hi hr hc hk2]
    simp only [List.append_nil, Prod.mk.injEq, and_true]
    congr 1
    push_cast
    ring

/-- A live session whose clock shows 60 is the state `liveAt lead`. -/
theorem live_fresh (s : Session) (lead : Lead) (h : Live s lead) (h60 : s.timer = 60) :
    s = liveAt lead := by
  obtain ⟨h1, h2, _, _, h5, h6, h7, h8⟩ := h
  cases s
  simp only [liveAt, Session.mk.injEq]
  simp_all

/-- The state of a fresh live session after `k < 60` ticks. -/
theorem liveAt_ticks (p : Props) (lead : Lead) (k : Nat) (hk : k < 60) :
    run p (liveAt lead) (List.replicate k .tick)
      = ({ liveAt lead with timer := 60 - (k : Int) }, []) := by
  have h := run_ticks p lead k (liveAt lead) rfl rfl rfl
    (by show (k : Int) < 60; exact_mod_cast hk)
  simpa [liveAt] using h

/-- A non-empty fetch result makes the mounted session live on its first lead, with
the clock at 60. -/
theorem fetched_lead_is_live (p : Props) (hu : p.hasUser = true) (l : Lead) (ls : List Lead) :
    step p (mount p).1 (.settle 0 (.resolved (.leads (l :: ls)))) = (liveAt l, []) ∧
    Live (liveAt l) l := by
  constructor
  · simp [mount, hu, step, resume, firstLead, liveAt]
  · simp [Live, liveAt]

/-! ## C3 -/

/-- C3 (as stated, refuted): with the accept intent arriving after 5 ticks the
countdown value is 0 afterwards, not 55. -/
theorem accept_after_five_ticks_timer :
    (run ⟨some "9000000001", true⟩ (liveAt ⟨some (.str "O2"), none⟩)
        (List.replicate 5 .tick ++ [.acceptIntent])).1.timer = 0 ∧
    (run ⟨some "9000000001", true⟩ (liveAt ⟨some (.str "O2"), none⟩)
        (List.replicate 5 .tick ++ [.acceptIntent])).1.timer ≠ 60 - 5 := by
  decide

/-- C3 (amended): for every live offer whose clock started at 60, when the accept
intent arrives after `k` ticks (`0 ≤ k < 60`) the clock is stopped and
`remainingSeconds` is set to 0 (`setTimer(0)`, line 96); before the intent it was
`60 - k`. -/
theorem accept_stops_clock_and_zeroes_timer (p : Props) (s : Session) (lead : Lead)
    (h : Live s lead) (h60 : s.timer = 60) (k : Nat) (hk : k < 60) :
    (run p s (List.replicate k .tick)).1.timer = 60 - (k : Int) ∧
    (run p s (List.replicate k .tick)).1.interval = some lead ∧
    (run p s (List.replicate k .tick ++ [.acceptIntent])).1.timer = 0 ∧
    (run p s (List.replicate k .tick ++ [.acceptIntent])).1.interval = none := by
  rw [live_fresh s lead h h60, run_append, liveAt_ticks p lead k hk]
  simp [run, step, handleAccept, liveAt]

theorem accept_stops_clock_and_zeroes_timer_witness :
    (run ⟨some "9000000001", true⟩ (liveAt ⟨some (.str "O2"), none⟩)
        (List.replicate 5 .tick)).1.timer = 60 - ((5 : Nat) : Int) ∧
    (run ⟨some "9000000001", true⟩ (liveAt ⟨some (.str "O2"), none⟩)
        (List.replicate 5 .tick)).1.interval = some ⟨some (.str "O2"), none⟩ ∧
    (run ⟨some "9000000001", true⟩ (liveAt ⟨some (.str "O2"), none⟩)
        (List.replicate 5 .tick ++ [.acceptIntent])).1.timer = 0 ∧
    (run ⟨some "9000000001", true⟩ (liveAt ⟨some (.str "O2"), none⟩)
        (List.replicate 5 .tick ++ [.acceptIntent])).1.interval = none :=
  accept_stops_clock_and_zeroes_timer ⟨some "9000000001", true⟩
    (liveAt ⟨some (.str "O2"), none⟩) ⟨some (.str "O2"), none⟩ (by decide) rfl 5 (by decide)

/-! ## C5 -/

/-- C5: for every live offer with id `i`, an accept intent issues `UpdateOrders`
for `i` and nothing else; `AcceptLeads` for `i` is issued only when that call
resolves, never when it rejects; a rejection of either call gives the alert
"Accept failed" and `onClose` with nothing left in flight (no retry); when both
resolve the page is reloaded (accepted); and the whole path, whatever the two
outcomes, never issues `DeclineLeads`. -/
theorem accept_path_order_and_abort (p : Props) (s : Session) (lead : Lead)
    (h : Live s lead) (o1 o2 : Outcome) :
    (step p s .acceptIntent).2 = [.call (.UpdateOrders lead.OrderID "Done" p.UserID)] ∧
    (step p (step p s .acceptIntent).1 (.settle 0 o1)).2
      = (match o1 with
         | .resolved _ => [.call (.AcceptLeads lead.OrderID p.UserID)]
         | .rejected => [.alert "Accept failed", .onClose]) ∧
    (run p s [.acceptIntent, .settle 0 o1, .settle 0 o2]).2
      = (match o1, o2 with
         | .rejected, _ =>
           [.call (.UpdateOrders lead.OrderID "Done" p.UserID),
            .alert "Accept failed", .onClose]
         | .resolved _, .rejected =>
           [.call (.UpdateOrders lead.OrderID "Done" p.UserID),
            .call (.AcceptLeads lead.OrderID p.UserID), .alert "Accept failed", .onClose]
         | .resolved _, .resolved _ =>
           [.call (.UpdateOrders lead.OrderID "Done" p.UserID),
            .call (.AcceptLeads lead.OrderID p.UserID), .reload]) ∧
    (run p s [.acceptIntent, .settle 0 o1, .settle 0 o2]).1.inflight = [] ∧
    (∀ i u, Call.DeclineLeads i u ∉
      calls (run p s [.acceptIntent, .settle 0 o1, .settle 0 o2]).2) := by
  obtain ⟨h1, h2, _, _, h5, h6, h7, h8⟩ := h
  cases o1 <;> cases o2 <;>
    simp [run, step, handleAccept, resume, close, reload, calls, h1, h5, h6, h7, h8] <;>
    cases p.onClose <;> simp [calls]

theorem accept_path_order_and_abort_witness :
    (step ⟨some "9000000001", true⟩ (liveAt ⟨some (.str "O2"), none⟩) .acceptIntent).2
      = [.call (.UpdateOrders (some (.str "O2")) "Done" (some "9000000001"))] ∧
    (run ⟨some "9000000001", true⟩ (liveAt ⟨some (.str "O2"), none⟩)
        [.acceptIntent, .settle 0 (.resolved .nullish), .settle 0 (.resolved .nullish)]).2
      = [.call (.UpdateOrders (some (.str "O2")) "Done" (some "9000000001")),
         .call (.AcceptLeads (some (.str "O2")) (some "9000000001")), .reload] :=
  ⟨(accept_path_order_and_abort ⟨some "9000000001", true⟩ (liveAt ⟨some (.str "O2"), none⟩)
      ⟨some (.str "O2"), none⟩ (by decide) (.resolved .nullish) (.resolved .nullish)).1,
   (accept_path_order_and_abort ⟨some "9000000001", true⟩ (liveAt ⟨some (.str "O2"), none⟩)
      ⟨some (.str "O2"), none⟩ (by decide) (.resolved .nullish) (.resolved .nullish)).2.2.1⟩

/-! ## C2 -/

/-- Sixty ticks on a fresh live session with a truthy order id. -/
theorem liveAt_sixty_ticks (p : Props) (lead : Lead) (ht : truthy lead.OrderID = true) :
    run p (liveAt lead) (List.replicate 60 .tick)
      = (autoDeclining lead, [.call (.DeclineLeads lead.OrderID p.UserID)]) := by
  rw [show (60 : Nat) = 59 + 1 from rfl, List.replicate_succ', run_append,
    liveAt_ticks p lead 59 (by decide)]
  simp [run, step, tick, autoDecline, liveAt, autoDeclining, ht]

theorem step_settle (p : Props) (s : Session) (i : Nat) (o : Outcome) (a : Await)
    (hr : s.reloaded = false) (hg : s.inflight[i]? = some a) :
    step p s (.settle i o) = resume p a o { s with inflight := s.inflight.eraseIdx i } := by
  simp only [step, hr, hg, Bool.false_eq_true, if_false]

theorem step_settle_none (p : Props) (s : Session) (i : Nat) (o : Outcome)
    (hg : s.reloaded = true ∨ s.inflight[i]? = none) :
    step p s (.settle i o) = (s, []) := by
  rcases hg with hg | hg
  · simp only [step, hg, if_true]
  · cases hr : s.reloaded <;> simp only [step, hr, hg, Bool.false_eq_true, if_false, if_true]

/-- What resuming an automatic-decline frame does to the fields other paths read. -/
theorem resume_autoDecline (p : Props) (o : Outcome) (s : Session) :
    calls (resume p .autoDecline o s).2 = [] ∧
    (s.interval = none → (resume p .autoDecline o s).1.interval = none) ∧
    (resume p .autoDecline o s).1.inflight = s.inflight := by
  cases o with
  | rejected => cases hp : p.onClose <;> simp [resume, close, calls, hp]
  | resolved v =>
    cases hv : confirmed v <;> cases hp : p.onClose <;>
      simp [resume, close, reload, calls, hp, hv]

/-- Once the clock is stopped and only automatic-decline frames are in flight,
ticks and settled calls issue no further remote call. -/
theorem no_call_after_auto (p : Props) (es : List Event) (s : Session)
    (hi : s.interval = none) (hf : ∀ a ∈ s.inflight, a = Await.autoDecline)
    (hes : ∀ e ∈ es, e = Event.tick ∨ ∃ i o, e = Event.settle i o) :
    calls (run p s es).2 = [] := by
  induction es generalizing s with
  | nil => simp [run, calls]
  | cons e es ih =>
    have hes2 : ∀ e ∈ es, e = Event.tick ∨ ∃ i o, e = Event.settle i o :=
      fun x hx => hes x (List.mem_cons_of_mem _ hx)
    rcases hes e (List.mem_cons_self _ _) with he | ⟨i, o, he⟩
    · subst he
      have hstep : step p s .tick = (s, []) := by simp [step, hi]
      simp only [run, hstep, List.nil_append]
      exact ih s hi hf hes2
    · subst he
      simp only [run, calls_append]
      by_cases hn : s.reloaded = true ∨ s.inflight[i]? = none
      · rw [step_settle_none p s i o hn]
        simpa [calls] using ih s hi hf hes2
      · have hr : s.reloaded = false := by
          cases h : s.reloaded
          · rfl
          · exact absurd (Or.inl h) hn
        obtain ⟨a, hg⟩ : ∃ a, s.inflight[i]? = some a := by
          cases h : s.inflight[i]? with
          | none => exact absurd (Or.inr h) hn
          | some a => exact ⟨a, rfl⟩
        have ha : a = Await.autoDecline := hf a (List.getElem?_mem hg)
        subst ha
        rw [step_settle p s i o _ hr hg]
        obtain ⟨h1, h2, h3⟩ :=
          resume_autoDecline p o { s with inflight := s.inflight.eraseIdx i }
        rw [h1, List.nil_append]
        refine ih _ (h2 hi) ?_ hes2
        rw [h3]
        exact fun a h => hf a (List.mem_of_mem_eraseIdx h)

/-- C2 (as stated, refuted): a live offer whose order id is the number 0 is never
declined by the clock: the 60th tick stops the clock and issues no call
(`if (!pendingLead?.OrderID) return`, line 76). -/
theorem auto_decline_skips_falsy_id :
    (run ⟨some "9000000001", true⟩ (liveAt ⟨some (.num 0), none⟩)
        (List.replicate 60 .tick)).2 = [] ∧
    (run ⟨some "9000000001", true⟩ (liveAt ⟨some (.num 0), none⟩)
        (List.replicate 60 .tick)).1.interval = none := by
  decide

/-- C2 (amended): for every live offer whose id `i` is truthy and whose clock
starts at 60, with no user intent each of the first 59 ticks issues nothing, the
60th tick stops the clock and issues exactly one `DeclineLeads` call with `i` and
the session identity, and afterwards no tick (nor the settling of that call)
issues any call. -/
theorem auto_decline_once_at_sixtieth_tick (p : Props) (s : Session) (lead : Lead)
    (h : Live s lead) (h60 : s.timer = 60) (ht : truthy lead.OrderID = true) :
    (∀ k, k < 59 → (step p (run p s (List.replicate k .tick)).1 .tick).2 = []) ∧
    (step p (run p s (List.replicate 59 .tick)).1 .tick).2
      = [.call (.DeclineLeads lead.OrderID p.UserID)] ∧
    (run p s (List.replicate 60 .tick)).2 = [.call (.DeclineLeads lead.OrderID p.UserID)] ∧
    (run p s (List.replicate 60 .tick)).1.interval = none ∧
    (∀ es : List Event, (∀ e ∈ es, e = Event.tick ∨ ∃ i o, e = Event.settle i o) →
      calls (run p (run p s (List.replicate 60 .tick)).1 es).2 = []) := by
  rw [live_fresh s lead h h60]
  refine ⟨?_, ?_, ?_, ?_, ?_⟩
  · intro k hk
    rw [liveAt_ticks p lead k (by omega)]
    have h1 : ¬ (60 - (k : Int) ≤ 1) := by omega
    simp [step, tick, liveAt, h1]
  · rw [liveAt_ticks p lead 59 (by decide)]
    simp [step, tick, autoDecline, liveAt, ht]
  · rw [liveAt_sixty_ticks p lead ht]
  · rw [liveAt_sixty_ticks p lead ht]; rfl
  · intro es hes
    rw [liveAt_sixty_ticks p lead ht]
    exact no_call_after_auto p es (autoDeclining lead) rfl (by simp [autoDeclining]) hes

theorem auto_decline_once_at_sixtieth_tick_witness :
    (run ⟨some "9000000001", true⟩ (liveAt ⟨some (.str "O1"), none⟩)
        (List.replicate 60 .tick)).2
      = [.call (.DeclineLeads (some (.str "O1")) (some "9000000001"))] :=
  (auto_decline_once_at_sixtieth_tick ⟨some "9000000001", true⟩
    (liveAt ⟨some (.str "O1"), none⟩) ⟨some (.str "O1"), none⟩
    (by decide) rfl (by decide)).2.2.1

/-! ## C4 -/

theorem confirms_iff (o : Outcome) :
    o.confirms = true ↔ o = .resolved (.object (some (.str "Lead Declined Successfully"))) := by
  cases o with
  | rejected => simp [Outcome.confirms]
  | resolved v =>
    cases v with
    | nullish => simp [Outcome.confirms, confirmed]
    | leads l => simp [Outcome.confirms, confirmed]
    | object m =>
      cases m with
      | none => simp [Outcome.confirms, confirmed]
      | some j => cases j <;> simp [Outcome.confirms, confirmed]

/-- C4 (as stated, refuted): when the automatic decline call fails the session only
runs `onClose`; no notification is raised.  The same holds on the manual path for a
response that is present but does not confirm. -/
theorem decline_error_without_notification :
    autoDeclineEffects ⟨some "9000000001", true⟩ (liveAt ⟨some (.str "O1"), none⟩) .rejected
      = [.call (.DeclineLeads (some (.str "O1")) (some "9000000001")), .onClose] ∧
    manualDeclineEffects ⟨some "9000000001", true⟩ (liveAt ⟨some (.str "O1"), none⟩)
        (.resolved (.object (some (.str "Lead not found"))))
      = [.call (.DeclineLeads (some (.str "O1")) (some "9000000001")), .onClose] := by
  decide

/-- The manual decline path from any live state: the call, then what its outcome
selects. -/
theorem manualDeclineEffects_eq (p : Props) (s : Session) (lead : Lead) (h : Live s lead)
    (o : Outcome) :
    manualDeclineEffects p s o
      = .call (.DeclineLeads lead.OrderID p.UserID)
          :: (if o.confirms then [Effect.alert "Declined", .reload, .onClose]
              else if o = .rejected then [Effect.alert "Decline failed", .onClose]
              else [Effect.onClose]) := by
  obtain ⟨h1, _, _, _, h5, h6, h7, h8⟩ := h
  unfold manualDeclineEffects
  cases o with
  | rejected =>
    simp [run, step, handleDecline, resume, h1, h5, h6, h7, h8, Outcome.confirms]
  | resolved v =>
    cases hv : confirmed v <;>
      simp [run, step, handleDecline, resume, h1, h5, h6, h7, h8, Outcome.confirms, hv]

/-- The automatic decline path from any live state of an offer with a truthy id:
the call, then what its outcome selects. -/
theorem autoDeclineEffects_eq (p : Props) (s : Session) (lead : Lead) (h : Live s lead)
    (ht : truthy lead.OrderID = true) (o : Outcome) :
    autoDeclineEffects p s o
      = .call (.DeclineLeads lead.OrderID p.UserID)
          :: (if o.confirms then [Effect.reload] else [Effect.onClose]) := by
  obtain ⟨_, h2, h3, _, _, h6, h7, h8⟩ := h
  obtain ⟨k, hk⟩ : ∃ k, s.timer.toNat = k + 1 := ⟨s.timer.toNat - 1, by omega⟩
  have hk1 : (k : Int) < s.timer := by omega
  have hk2 : s.timer - (k : Int) ≤ 1 := by omega
  unfold autoDeclineEffects
  rw [hk, List.replicate_succ', run_append, run_append, run_ticks p lead k s h2 h7 h8 hk1]
  cases o with
  | rejected =>
    simp [run, step, tick, autoDecline, resume, ht, hk2, h2, h6, h7, h8, Outcome.confirms]
  | resolved v =>
    cases hv : confirmed v <;>
      simp [run, step, tick, autoDecline, resume, ht, hk2, h2, h6, h7, h8,
        Outcome.confirms, hv]

/-- C4 (amended): on both decline paths, entered from any live state, the session
issues the `DeclineLeads` call and signals "declined" (reloads the page) if and
only if the call returned a response whose message is exactly
"Lead Declined Successfully"; for every outcome the session closes (`onClose` on
the manual path, reload or `onClose` on the automatic path); on the manual path the
success alert "Declined" is raised exactly for a confirmed response and a failed
call raises the distinct alert "Decline failed"; the automatic path, which issues
the call for an offer with a truthy id, raises no alert for any outcome. -/
theorem decline_outcome_classification (p : Props) (s : Session) (lead : Lead)
    (h : Live s lead) (o : Outcome) :
    (o.confirms = true ↔
      o = .resolved (.object (some (.str "Lead Declined Successfully")))) ∧
    (manualDeclineEffects p s o).head? = some (.call (.DeclineLeads lead.OrderID p.UserID)) ∧
    (Effect.reload ∈ manualDeclineEffects p s o ↔ o.confirms = true) ∧
    Effect.onClose ∈ manualDeclineEffects p s o ∧
    (Effect.alert "Declined" ∈ manualDeclineEffects p s o ↔ o.confirms = true) ∧
    (o = .rejected → Effect.alert "Decline failed" ∈ manualDeclineEffects p s o) ∧
    (truthy lead.OrderID = true →
      (autoDeclineEffects p s o).head? = some (.call (.DeclineLeads lead.OrderID p.UserID)) ∧
      (Effect.reload ∈ autoDeclineEffects p s o ↔ o.confirms = true) ∧
      (Effect.reload ∈ autoDeclineEffects p s o ∨ Effect.onClose ∈ autoDeclineEffects p s o) ∧
      (∀ msg, Effect.alert msg ∉ autoDeclineEffects p s o)) := by
  refine ⟨confirms_iff o, ?_⟩
  rw [manualDeclineEffects_eq p s lead h o]
  refine ⟨rfl, ?_, ?_, ?_, ?_, ?_⟩
  · cases hc : o.confirms <;> cases o <;> simp_all [Outcome.confirms]
  · cases hc : o.confirms <;> cases o <;> simp_all [Outcome.confirms]
  · cases hc : o.confirms <;> cases o <;> simp_all [Outcome.confirms]
  · rintro rfl
    simp [Outcome.confirms]
  · intro ht
    rw [autoDeclineEffects_eq p s lead h ht o]
    cases hc : o.confirms <;> simp

theorem decline_outcome_classification_witness :
    (Effect.reload ∈ manualDeclineEffects ⟨some "9000000001", true⟩
        { liveAt ⟨some (.num 0), none⟩ with timer := 57 }
        (.resolved (.object (some (.str "Lead Declined Successfully")))) ↔
      (Outcome.resolved (.object (some (.str "Lead Declined Successfully")))).confirms
        = true) ∧
    (∀ msg, Effect.alert msg ∉ autoDeclineEffects ⟨some "9000000001", true⟩
        { liveAt ⟨some (.str "O1"), none⟩ with timer := 57 } .rejected) :=
  ⟨(decline_outcome_classification ⟨some "9000000001", true⟩
      { liveAt ⟨some (.num 0), none⟩ with timer := 57 } ⟨some (.num 0), none⟩ (by decide)
      (.resolved (.object (some (.str "Lead Declined Successfully"))))).2.2.1,
   ((decline_outcome_classification ⟨some "9000000001", true⟩
      { liveAt ⟨some (.str "O1"), none⟩ with timer := 57 } ⟨some (.str "O1"), none⟩
      (by decide) .rejected).2.2.2.2.2.2 (by decide)).2.2.2⟩

/-! ## C6 -/

theorem close_timer (p : Props) (s : Session) : (close p s).timer = s.timer := by
  cases hp : p.onClose <;> simp [close, hp]

/-- Resuming a frame leaves the countdown value alone or resets it to 60. -/
theorem resume_timer (p : Props) (a : Await) (o : Outcome) (s : Session) :
    (resume p a o s).1.timer = s.timer ∨ (resume p a o s).1.timer = 60 := by
  cases a <;> cases o <;> simp only [resume] <;>
    first
    | (left; simp [close_timer, reload]; done)
    | (split <;> simp [close_timer, reload])

/-- Every event keeps the countdown value within `0..60`. -/
theorem step_timer_range (p : Props) (s : Session) (e : Event)
    (h : 0 ≤ s.timer ∧ s.timer ≤ 60) :
    0 ≤ (step p s e).1.timer ∧ (step p s e).1.timer ≤ 60 := by
  cases e with
  | tick =>
    cases hi : s.interval with
    | none => simpa [step, hi] using h
    | some lead =>
      by_cases hrc : (s.reloaded || s.closed) = true
      · simpa [step, hi, hrc] using h
      · by_cases h1 : s.timer ≤ 1
        · simp [step, hi, hrc, tick, h1]
        · simp only [step, hi, hrc, tick, h1, if_false, Bool.false_eq_true]
          exact ⟨by show 0 ≤ s.timer - 1; omega, by show s.timer - 1 ≤ 60; omega⟩
  | acceptIntent =>
    simp only [step]
    split
    · cases hl : s.pendingLead <;> simp [handleAccept, hl, h]
    · exact h
  | declineIntent =>
    simp only [step]
    split
    · cases hl : s.pendingLead <;> simp [handleDecline, hl, h]
    · exact h
  | settle i o =>
    by_cases hn : s.reloaded = true ∨ s.inflight[i]? = none
    · rw [step_settle_none p s i o hn]; exact h
    · have hr : s.reloaded = false := by
        cases h : s.reloaded
        · rfl
        · exact absurd (Or.inl h) hn
      obtain ⟨a, hg⟩ : ∃ a, s.inflight[i]? = some a := by
        cases h : s.inflight[i]? with
        | none => exact absurd (Or.inr h) hn
        | some a => exact ⟨a, rfl⟩
      rw [step_settle p s i o a hr hg]
      rcases resume_timer p a o { s with inflight := s.inflight.eraseIdx i } with h2 | h2
      · rw [h2]; exact h
      · rw [h2]; decide

theorem run_timer_range (p : Props) (es : List Event) (s : Session)
    (h : 0 ≤ s.timer ∧ s.timer ≤ 60) :
    0 ≤ (run p s es).1.timer ∧ (run p s es).1.timer ≤ 60 := by
  induction es generalizing s with
  | nil => simpa [run] using h
  | cons e es ih => simpa [run] using ih (step p s e).1 (step_timer_range p s e h)

/-- C6: while the clock is running with a value `r` in `1..60`, one tick yields
exactly `r - 1`, and the clock is still running after the tick if and only if the
new value is greater than 0; in every state reachable from mounting the component
the value is never negative (and never above 60). -/
theorem clock_monotonicity (p : Props) (s : Session) (lead : Lead) (r : Int)
    (hi : s.interval = some lead) (hr : s.reloaded = false) (hc : s.closed = false)
    (ht : s.timer = r) (h1 : 1 ≤ r) (h60 : r ≤ 60) :
    (step p s .tick).1.timer = r - 1 ∧
    ((step p s .tick).1.interval.isSome = true ↔ 0 < (step p s .tick).1.timer) ∧
    (∀ es : List Event,
      0 ≤ (run p (mount p).1 es).1.timer ∧ (run p (mount p).1 es).1.timer ≤ 60) := by
  subst ht
  refine ⟨?_, ?_, ?_⟩
  · by_cases hle : s.timer ≤ 1
    · have h0 : s.timer - 1 = 0 := by omega
      simp [step, hi, hr, hc, tick, hle, h0]
    · simp [step, hi, hr, hc, tick, hle]
  · by_cases hle : s.timer ≤ 1
    · by_cases hty : truthy lead.OrderID = true <;>
        simp [step, hi, hr, hc, tick, hle, autoDecline, hty]
    · have : 0 < s.timer - 1 := by omega
      simp [step, hi, hr, hc, tick, hle, this]
  · intro es
    apply run_timer_range
    cases hu : p.hasUser <;> simp [mount, hu]

theorem clock_monotonicity_witness :
    (step ⟨some "9000000001", true⟩ (liveAt ⟨some (.str "O1"), none⟩) .tick).1.timer
      = 60 - 1 :=
  (clock_monotonicity ⟨some "9000000001", true⟩ (liveAt ⟨some (.str "O1"), none⟩)
    ⟨some (.str "O1"), none⟩ 60 rfl rfl rfl rfl (by decide) (by decide)).1

/-! ## C7 -/

/-- A session holding no lead, no interval and no suspended frame ignores every event. -/
theorem step_idle (p : Props) (s : Session) (e : Event)
    (hl : s.pendingLead = none) (hi : s.interval = none) (hf : s.inflight = []) :
    step p s e = (s, []) := by
  cases e with
  | tick => simp [step, hi]
  | acceptIntent => simp [step, hl]
  | declineIntent => simp [step, hl]
  | settle i o => exact step_settle_none p s i o (Or.inr (by simp [hf]))

theorem run_idle (p : Props) (es : List Event) (s : Session)
    (hl : s.pendingLead = none) (hi : s.interval = none) (hf : s.inflight = []) :
    run p s es = (s, []) := by
  induction es with
  | nil => rfl
  | cons e es ih => simp [run, step_idle p s e hl hi hf, ih]

/-- C7: for every session with an identity, mounting issues the single
`ShowLeads` call; if it resolves with an empty result or rejects, the session runs
`onClose` and nothing else, holds no offer, has no clock installed, and for every
later sequence of ticks, intents and settled calls it performs no effect at all:
no `AcceptLeads`, `DeclineLeads` or `UpdateOrders` call, no second `ShowLeads`
call, and the clock is never started. -/
theorem empty_or_failed_fetch_closes (p : Props) (hu : p.hasUser = true) (o : Outcome)
    (ho : o = .rejected ∨ ∃ v, o = .resolved v ∧ firstLead v = none) :
    (mount p).2 = [.call (.ShowLeads p.UserID "Pending")] ∧
    (step p (mount p).1 (.settle 0 o)).2 = [.onClose] ∧
    (step p (mount p).1 (.settle 0 o)).1.pendingLead = none ∧
    (step p (mount p).1 (.settle 0 o)).1.interval = none ∧
    (∀ es : List Event,
      (run p (step p (mount p).1 (.settle 0 o)).1 es).2 = [] ∧
      (run p (step p (mount p).1 (.settle 0 o)).1 es).1.interval = none ∧
      (run p (step p (mount p).1 (.settle 0 o)).1 es).1.pendingLead = none) := by
  have hfx : (step p (mount p).1 (.settle 0 o)).2 = [.onClose] ∧
      (step p (mount p).1 (.settle 0 o)).1.pendingLead = none ∧
      (step p (mount p).1 (.settle 0 o)).1.interval = none ∧
      (step p (mount p).1 (.settle 0 o)).1.inflight = [] := by
    rcases ho with ho | ⟨v, ho, hv⟩
    · subst ho
      cases hp : p.onClose <;> simp [mount, hu, step, resume, close, hp]
    · subst ho
      cases hp : p.onClose <;> simp [mount, hu, step, resume, close, hp, hv]
  obtain ⟨h1, h2, h3, h4⟩ := hfx
  refine ⟨by simp [mount, hu], h1, h2, h3, ?_⟩
  intro es
  rw [run_idle p es _ h2 h3 h4]
  exact ⟨rfl, h3, h2⟩

theorem empty_or_failed_fetch_closes_witness :
    (step ⟨some "9000000001", true⟩ (mount ⟨some "9000000001", true⟩).1
        (.settle 0 (.resolved (.leads [])))).2 = [.onClose] :=
  (empty_or_failed_fetch_closes ⟨some "9000000001", true⟩ (by decide)
    (.resolved (.leads [])) (Or.inr ⟨.leads [], rfl, rfl⟩)).2.1

/-! ## C1 -/

theorem step_resolving_trigger (p : Props) (s : Session) (e : Event)
    (h : Resolving s) (he : e.isTrigger = true) : step p s e = (s, []) := by
  obtain ⟨hi, _, hl⟩ := h
  cases e with
  | tick => simp [step, hi]
  | acceptIntent => rcases hl with hl | hl | hl <;> simp [step, hl]
  | declineIntent => rcases hl with hl | hl | hl <;> simp [step, hl]
  | settle i o => simp [Event.isTrigger] at he

theorem resume_resolving (p : Props) (hp : p.onClose = true) (a : Await) (o : Outcome)
    (s : Session) (ha : a ≠ .fetchLead) (h : Resolving s) :
    Resolving (resume p a o s).1 := by
  obtain ⟨hi, hf, hl⟩ := h
  cases a with
  | fetchLead => exact absurd rfl ha
  | acceptUpdate lead =>
    cases o with
    | rejected => simp [Resolving, resume, close, hp, hf]
    | resolved v => simpa [Resolving, resume, hi, hf] using hl
  | acceptAccept lead =>
    cases o with
    | rejected => simp [Resolving, resume, close, hp, hf]
    | resolved v => simp [Resolving, resume, reload, hf]
  | decline =>
    cases o with
    | rejected => simp [Resolving, resume, close, hp, hf]
    | resolved v => cases hv : confirmed v <;> simp [Resolving, resume, close, reload, hp, hf, hv]
  | autoDecline =>
    cases o with
    | rejected => simp [Resolving, resume, close, hp, hf]
    | resolved v => cases hv : confirmed v <;> simp [Resolving, resume, close, reload, hp, hf, hv]

theorem step_resolving (p : Props) (hp : p.onClose = true) (s : Session) (e : Event)
    (h : Resolving s) : Resolving (step p s e).1 := by
  cases he : e.isTrigger with
  | true => rw [step_resolving_trigger p s e h he]; exact h
  | false =>
    cases e with
    | tick => simp [Event.isTrigger] at he
    | acceptIntent => simp [Event.isTrigger] at he
    | declineIntent => simp [Event.isTrigger] at he
    | settle i o =>
      by_cases hn : s.reloaded = true ∨ s.inflight[i]? = none
      · rw [step_settle_none p s i o hn]; exact h
      · have hr : s.reloaded = false := by
          cases h : s.reloaded
          · rfl
          · exact absurd (Or.inl h) hn
        obtain ⟨a, hg⟩ : ∃ a, s.inflight[i]? = some a := by
          cases h : s.inflight[i]? with
          | none => exact absurd (Or.inr h) hn
          | some a => exact ⟨a, rfl⟩
        rw [step_settle p s i o a hr hg]
        obtain ⟨hi, hf, hl⟩ := h
        refine resume_resolving p hp a o _ ?_ ⟨hi, ?_, hl⟩
        · rintro rfl; exact hf (List.getElem?_mem hg)
        · exact fun hm => hf (List.mem_of_mem_eraseIdx hm)

theorem run_resolving (p : Props) (hp : p.onClose = true) (es : List Event) (s : Session)
    (h : Resolving s) : Resolving (run p s es).1 := by
  induction es generalizing s with
  | nil => exact h
  | cons e es ih => exact ih _ (step_resolving p hp s e h)

theorem triggers_resolving (p : Props) (hp : p.onClose = true) (es : List Event)
    (s : Session) (h : Resolving s) : triggers p s es = 0 := by
  induction es generalizing s with
  | nil => rfl
  | cons e es ih =>
    have h2 := ih _ (step_resolving p hp s e h)
    cases he : e.isTrigger with
    | true =>
      rw [step_resolving_trigger p s e h he] at h2
      simp [triggers, step_resolving_trigger p s e h he, calls, h2]
    | false => simp [triggers, he, h2]

/-- From an unresolved state an event either issues a call and starts resolving, or
issues no call and leaves the state unresolved. -/
theorem step_unresolved (p : Props) (s : Session) (e : Event) (h : Unresolved s) :
    (e.isTrigger = true ∧ calls (step p s e).2 ≠ [] ∧ Resolving (step p s e).1) ∨
    (calls (step p s e).2 = [] ∧ Unresolved (step p s e).1) := by
  obtain ⟨hl, hld, hf, hr, hc⟩ := h
  obtain ⟨lead, hlead⟩ := Option.isSome_iff_exists.mp hl
  cases e with
  | tick =>
    cases hi : s.interval with
    | none => right; simp [step, hi, calls, Unresolved, hl, hld, hf, hr, hc]
    | some l =>
      by_cases h1 : s.timer ≤ 1
      · by_cases hty : truthy l.OrderID = true
        · left
          simp [step, hi, hr, hc, tick, h1, autoDecline, hty, calls, Resolving, hf,
            Event.isTrigger]
        · right
          simp [step, hi, hr, hc, tick, h1, autoDecline, hty, calls, Unresolved, hl, hld, hf]
      · right
        simp [step, hi, hr, hc, tick, h1, calls, Unresolved, hl, hld, hf]
  | acceptIntent =>
    left
    simp [step, hlead, hld, hr, hc, handleAccept, calls, Resolving, hf, Event.isTrigger]
  | declineIntent =>
    left
    simp [step, hlead, hld, hr, hc, handleDecline, calls, Resolving, hf, Event.isTrigger]
  | settle i o =>
    right
    rw [step_settle_none p s i o (Or.inr (by simp [hf]))]
    exact ⟨rfl, hl, hld, hf, hr, hc⟩

theorem step_unresolved_intent (p : Props) (s : Session) (e : Event) (h : Unresolved s)
    (he : e = .acceptIntent ∨ e = .declineIntent) :
    calls (step p s e).2 ≠ [] ∧ Resolving (step p s e).1 := by
  obtain ⟨hl, hld, hf, hr, hc⟩ := h
  obtain ⟨lead, hlead⟩ := Option.isSome_iff_exists.mp hl
  rcases he with rfl | rfl
  · simp [step, hlead, hld, hr, hc, handleAccept, calls, Resolving, hf]
  · simp [step, hlead, hld, hr, hc, handleDecline, calls, Resolving, hf]

theorem triggers_unresolved (p : Props) (hp : p.onClose = true) (es : List Event)
    (s : Session) (h : Unresolved s) :
    triggers p s es ≤ 1 ∧
    ((Event.acceptIntent ∈ es ∨ Event.declineIntent ∈ es) → triggers p s es = 1) := by
  induction es generalizing s with
  | nil => simp [triggers]
  | cons e es ih =>
    rcases step_unresolved p s e h with ⟨ht, hcall, hres⟩ | ⟨hcall, hun⟩
    · have h0 := triggers_resolving p hp es _ hres
      have hne : (calls (step p s e).2).isEmpty = false := by
        cases hc : calls (step p s e).2 with
        | nil => exact absurd hc hcall
        | cons a l => rfl
      simp [triggers, ht, hne, h0]
    · obtain ⟨h1, h2⟩ := ih _ hun
      have hne : (calls (step p s e).2).isEmpty = true := by rw [hcall]; rfl
      have ht : triggers p s (e :: es) = triggers p (step p s e).1 es := by
        simp [triggers, hne]
      rw [ht]
      refine ⟨h1, fun hm => h2 ?_⟩
      have hnot : e ≠ .acceptIntent ∧ e ≠ .declineIntent := by
        constructor <;> intro he <;>
          exact (step_unresolved_intent p s e h (by simp [he])).1 hcall
      rcases hm with hm | hm
      · left; simpa [hnot.1.symm] using hm
      · right; simpa [hnot.2.symm] using hm

theorem run_unresolved_or_resolving (p : Props) (hp : p.onClose = true) (es : List Event)
    (s : Session) (h : Unresolved s ∨ Resolving s) :
    Unresolved (run p s es).1 ∨ Resolving (run p s es).1 := by
  induction es generalizing s with
  | nil => exact h
  | cons e es ih =>
    apply ih
    rcases h with h | h
    · rcases step_unresolved p s e h with ⟨_, _, hres⟩ | ⟨_, hun⟩
      · exact Or.inr hres
      · exact Or.inl hun
    · exact Or.inr (step_resolving p hp s e h)

theorem live_unresolved (s : Session) (lead : Lead) (h : Live s lead) : Unresolved s := by
  obtain ⟨h1, _, _, _, h5, h6, h7, h8⟩ := h
  exact ⟨by simp [h1], h5, h6, h7, h8⟩

/-- C1 (as stated, refuted): a sequence may hold no event that starts a resolution
path (a single tick starts none), and when the caller passes no `onClose` callback
a second accept intent after a failed accept path issues its remote call again. -/
theorem single_resolution_fails_as_stated :
    triggers ⟨some "9000000001", true⟩ (liveAt ⟨some (.str "O1"), none⟩) [.tick] = 0 ∧
    triggers ⟨some "9000000001", false⟩ (liveAt ⟨some (.str "O1"), none⟩)
      [.acceptIntent, .settle 0 .rejected, .acceptIntent] = 2 := by
  decide

/-- C1 (amended): in a popup whose caller closes it through `onClose`, for every
live offer and every finite sequence of accept intents, decline intents, clock
ticks and settled remote calls, at most one intent or tick starts a resolution
path that issues remote calls, and exactly one does when the sequence holds an
accept or decline intent; every accept intent, decline intent or tick arriving
after that first trigger, also after the session is closed, changes nothing and
issues no remote call. -/
theorem single_resolution (p : Props) (hp : p.onClose = true) (s : Session) (lead : Lead)
    (h : Live s lead) (es : List Event) :
    triggers p s es ≤ 1 ∧
    ((Event.acceptIntent ∈ es ∨ Event.declineIntent ∈ es) → triggers p s es = 1) ∧
    (∀ (pre post : List Event) (e e2 : Event), es = pre ++ e :: post →
      e.isTrigger = true → calls (step p (run p s pre).1 e).2 ≠ [] →
      e2.isTrigger = true → step p (run p s es).1 e2 = ((run p s es).1, [])) := by
  have hun := live_unresolved s lead h
  refine ⟨(triggers_unresolved p hp es s hun).1, (triggers_unresolved p hp es s hun).2, ?_⟩
  intro pre post e e2 hes he hcall he2
  subst hes
  have hres : Resolving (step p (run p s pre).1 e).1 := by
    rcases run_unresolved_or_resolving p hp pre s (Or.inl hun) with h1 | h1
    · rcases step_unresolved p _ e h1 with ⟨_, _, hres⟩ | ⟨hc, _⟩
      · exact hres
      · exact absurd hc hcall
    · rw [step_resolving_trigger p _ e h1 he] at hcall
      exact absurd rfl hcall
  have hfin : Resolving (run p s (pre ++ e :: post)).1 := by
    rw [run_append]
    exact run_resolving p hp post _ hres
  exact step_resolving_trigger p _ e2 hfin he2

theorem single_resolution_witness :
    triggers ⟨some "9000000001", true⟩ (liveAt ⟨some (.str "O1"), none⟩)
      [.tick, .acceptIntent, .declineIntent, .settle 0 .rejected, .acceptIntent, .tick] ≤ 1 :=
  (single_resolution ⟨some "9000000001", true⟩ rfl (liveAt ⟨some (.str "O1"), none⟩)
    ⟨some (.str "O1"), none⟩ (by decide)
    [.tick, .acceptIntent, .declineIntent, .settle 0 .rejected, .acceptIntent, .tick]).1

end Popupcard

namespace Nearby

/-! ## Nearby: `JSON.stringify` is injective on lists of hub records -/

set_option maxRecDepth 100000 in
theorem codesApart_all : ∀ n < 93, ∀ m < 93, codesApart n m = true := by
  decide

theorem escapeCode_lt (n : Nat) (a : List Char) (h : escapeCode n = some a) : n < 93 := by
  unfold escapeCode at h
  split_ifs at h <;> omega

theorem isPrefixOf_append_self (a t : List Char) : a.isPrefixOf (a ++ t) = true := by
  induction a with
  | nil => simp
  | cons c cs ih => simp [List.isPrefixOf, ih]

theorem escapeCode_apart (n m : Nat) (a b x y : List Char)
    (hn : escapeCode n = some a) (hm : escapeCode m = some b) (h : a ++ x = b ++ y) :
    n = m := by
  have hlt := escapeCode_lt n a hn
  have hlt2 := escapeCode_lt m b hm
  rcases List.append_eq_append_iff.mp h with ⟨t, hb, _⟩ | ⟨t, ha, _⟩
  · have h1 := codesApart_all n hlt m hlt2
    simp only [codesApart, hn, hm, hb, isPrefixOf_append_self] at h1
    simpa using h1
  · have h1 := codesApart_all m hlt2 n hlt
    simp only [codesApart, hn, hm, ha, isPrefixOf_append_self] at h1
    have := h1
    simp at this
    exact this.symm

theorem char_eq_of_toNat (c d : Char) (h : c.toNat = d.toNat) : c = d := by
  rw [← Char.ofNat_toNat c, ← Char.ofNat_toNat d, h]

/-- The escape sequences form a prefix code. -/
theorem escapeChar_apart (c d : Char) (x y : List Char)
    (h : escapeChar c ++ x = escapeChar d ++ y) : c = d ∧ x = y := by
  unfold escapeChar at h
  cases hc : escapeCode c.toNat with
  | none =>
    cases hd : escapeCode d.toNat with
    | none =>
      rw [hc, hd] at h
      simpa using h
    | some b =>
      rw [hc, hd] at h
      simp only [List.singleton_append, List.cons_append, List.cons.injEq] at h
      have : c.toNat = 92 := by rw [h.1]; rfl
      rw [this] at hc
      simp [escapeCode] at hc
  | some a =>
    cases hd : escapeCode d.toNat with
    | none =>
      rw [hc, hd] at h
      simp only [List.singleton_append, List.cons_append, List.cons.injEq] at h
      have : d.toNat = 92 := by rw [← h.1]; rfl
      rw [this] at hd
      simp [escapeCode] at hd
    | some b =>
      rw [hc, hd] at h
      simp only [List.cons_append, List.cons.injEq, true_and] at h
      have hcd : c = d := char_eq_of_toNat c d (escapeCode_apart _ _ a b x y hc hd h)
      subst hcd
      rw [hc] at hd
      cases hd
      exact ⟨rfl, List.append_cancel_left h⟩

theorem escapeChar_head (c : Char) :
    ∃ h t, escapeChar c = h :: t ∧ h ≠ '\x22' := by
  unfold escapeChar
  cases hc : escapeCode c.toNat with
  | none =>
    refine ⟨c, [], rfl, ?_⟩
    intro h
    have : c.toNat = 34 := by rw [h]; rfl
    rw [this] at hc
    simp [escapeCode] at hc
  | some a => exact ⟨'\x5c', a, rfl, by decide⟩

/-- A string body followed by its closing quote determines the string and the rest. -/
theorem escapeAll_apart (l1 l2 r1 r2 : List Char)
    (h : escapeAll l1 ++ '\x22' :: r1 = escapeAll l2 ++ '\x22' :: r2) :
    l1 = l2 ∧ r1 = r2 := by
  induction l1 generalizing l2 with
  | nil =>
    cases l2 with
    | nil => simpa [escapeAll] using h
    | cons d ds =>
      obtain ⟨hd, t, ht, hne⟩ := escapeChar_head d
      simp only [escapeAll, ht, List.nil_append, List.cons_append, List.append_assoc,
        List.cons.injEq] at h
      exact absurd h.1.symm hne
  | cons c cs ih =>
    cases l2 with
    | nil =>
      obtain ⟨hd, t, ht, hne⟩ := escapeChar_head c
      simp only [escapeAll, ht, List.nil_append, List.cons_append, List.append_assoc,
        List.cons.injEq] at h
      exact absurd h.1 hne
    | cons d ds =>
      simp only [escapeAll, List.append_assoc] at h
      obtain ⟨hcd, hrest⟩ := escapeChar_apart c d _ _ h
      obtain ⟨h1, h2⟩ := ih ds hrest
      exact ⟨by rw [hcd, h1], h2⟩

theorem quote_apart (s t : String) (r1 r2 : List Char)
    (h : quote s ++ r1 = quote t ++ r2) : s = t ∧ r1 = r2 := by
  simp only [quote, List.cons_append, List.append_assoc, List.singleton_append,
    List.cons.injEq, true_and] at h
  obtain ⟨h1, h2⟩ := escapeAll_apart _ _ _ _ h
  exact ⟨String.ext h1, h2⟩


/-! ### Scalars other than strings -/

theorem digitChar_plain : ∀ d < 10, isPlain (Nat.digitChar d) = true ∧
    Nat.digitChar d ≠ '-' := by
  decide

theorem digitChar_letters : ∀ d < 10, Nat.digitChar d ≠ 'n' ∧ Nat.digitChar d ≠ 't' ∧
    Nat.digitChar d ≠ 'f' := by
  decide

theorem digitChar_inj : ∀ a < 10, ∀ b < 10, Nat.digitChar a = Nat.digitChar b → a = b := by
  decide

theorem map_digitChar_inj (l1 l2 : List Nat) (h1 : ∀ x ∈ l1, x < 10) (h2 : ∀ x ∈ l2, x < 10)
    (h : l1.map Nat.digitChar = l2.map Nat.digitChar) : l1 = l2 := by
  induction l1 generalizing l2 with
  | nil =>
    cases l2 with
    | nil => rfl
    | cons b bs => simp at h
  | cons a as ih =>
    cases l2 with
    | nil => simp at h
    | cons b bs =>
      simp only [List.map_cons, List.cons.injEq] at h
      have hab := digitChar_inj a (h1 a (List.mem_cons_self _ _)) b
        (h2 b (List.mem_cons_self _ _)) h.1
      have := ih bs (fun x hx => h1 x (List.mem_cons_of_mem _ hx))
        (fun x hx => h2 x (List.mem_cons_of_mem _ hx)) h.2
      rw [hab, this]

theorem natText_digits (n : Nat) :
    ∀ c ∈ natText n, isPlain c = true ∧ c ≠ '-' := by
  intro c hc
  unfold natText at hc
  split_ifs at hc with h0
  · simp only [List.mem_singleton] at hc
    subst hc
    decide
  · simp only [List.mem_map, List.mem_reverse] at hc
    obtain ⟨d, hd, rfl⟩ := hc
    exact digitChar_plain d (Nat.digits_lt_base (by decide) hd)

theorem natText_ne_nil (n : Nat) : natText n ≠ [] := by
  unfold natText
  split_ifs with h0
  · simp
  · simp [Nat.digits_ne_nil_iff_ne_zero, h0]

theorem natText_inj (n m : Nat) (h : natText n = natText m) : n = m := by
  have key : ∀ k : Nat, k ≠ 0 → natText k ≠ ['0'] := by
    intro k hk hz
    unfold natText at hz
    rw [if_neg hk] at hz
    have h1 : ((Nat.digits 10 k).reverse).map Nat.digitChar = [0].map Nat.digitChar := by
      rw [hz]; rfl
    have h2 := map_digitChar_inj _ _
      (fun x hx => Nat.digits_lt_base (by decide) (List.mem_reverse.mp hx))
      (by simp) h1
    have h3 : Nat.digits 10 k = [0] := by
      have := congrArg List.reverse h2
      simpa using this
    have h4 := Nat.ofDigits_digits 10 k
    rw [h3] at h4
    simp at h4
    exact hk h4.symm
  by_cases hn : n = 0
  · by_cases hm : m = 0
    · rw [hn, hm]
    · exfalso
      apply key m hm
      rw [← h, hn]
      rfl
  · by_cases hm : m = 0
    · exfalso
      apply key n hn
      rw [h, hm]
      rfl
    · unfold natText at h
      rw [if_neg hn, if_neg hm] at h
      have h2 := map_digitChar_inj _ _
        (fun x hx => Nat.digits_lt_base (by decide) (List.mem_reverse.mp hx))
        (fun x hx => Nat.digits_lt_base (by decide) (List.mem_reverse.mp hx)) h
      have h3 : Nat.digits 10 n = Nat.digits 10 m := by
        have := congrArg List.reverse h2
        simpa using this
      rw [← Nat.ofDigits_digits 10 n, ← Nat.ofDigits_digits 10 m, h3]

theorem intText_inj (a b : Int) (h : intText a = intText b) : a = b := by
  cases a with
  | ofNat n =>
    cases b with
    | ofNat m => rw [natText_inj n m h]
    | negSucc m =>
      exfalso
      simp only [intText] at h
      have hne := natText_ne_nil n
      cases hx : natText n with
      | nil => exact hne hx
      | cons c cs =>
        rw [hx] at h
        have := (natText_digits n c (by rw [hx]; exact List.mem_cons_self _ _)).2
        simp only [List.cons.injEq] at h
        exact this h.1
  | negSucc n =>
    cases b with
    | ofNat m =>
      exfalso
      simp only [intText] at h
      have hne := natText_ne_nil m
      cases hx : natText m with
      | nil => exact hne hx
      | cons c cs =>
        rw [hx] at h
        have := (natText_digits m c (by rw [hx]; exact List.mem_cons_self _ _)).2
        simp only [List.cons.injEq] at h
        exact this h.1.symm
    | negSucc m =>
      simp only [intText, List.cons.injEq, true_and] at h
      have := natText_inj _ _ h
      have : n = m := by omega
      rw [this]

theorem intText_plain (a : Int) : ∀ c ∈ intText a, isPlain c = true := by
  intro c hc
  cases a with
  | ofNat n => exact (natText_digits n c hc).1
  | negSucc n =>
    simp only [intText, List.mem_cons] at hc
    rcases hc with rfl | hc
    · decide
    · exact (natText_digits _ c hc).1

theorem intText_head (a : Int) :
    ∃ h t, intText a = h :: t ∧ h ≠ 'n' ∧ h ≠ 't' ∧ h ≠ 'f' := by
  cases a with
  | ofNat n =>
    cases hx : natText n with
    | nil => exact absurd hx (natText_ne_nil n)
    | cons c cs =>
      refine ⟨c, cs, by simp [intText, hx], ?_⟩
      have hc : c ∈ natText n := by rw [hx]; exact List.mem_cons_self _ _
      unfold natText at hc
      split_ifs at hc with h0
      · simp only [List.mem_singleton] at hc
        subst hc
        decide
      · simp only [List.mem_map, List.mem_reverse] at hc
        obtain ⟨d, hd, rfl⟩ := hc
        exact digitChar_letters d (Nat.digits_lt_base (by decide) hd)
  | negSucc n => exact ⟨'-', _, rfl, by decide⟩


theorem valueText_plain (v : Json) (hv : ∀ s, v ≠ .str s) :
    ∀ c ∈ valueText v, isPlain c = true := by
  cases v with
  | null => decide
  | bool b => cases b <;> decide
  | num n => exact intText_plain n
  | str s => exact absurd rfl (hv s)

theorem valueText_head (v : Json) (hv : ∀ s, v ≠ .str s) :
    ∃ h t, valueText v = h :: t ∧ h ≠ '\x22' := by
  cases v with
  | null => exact ⟨'n', _, rfl, by decide⟩
  | bool b => cases b
              · exact ⟨'f', _, rfl, by decide⟩
              · exact ⟨'t', _, rfl, by decide⟩
  | num n =>
    cases hx : intText n with
    | nil =>
      obtain ⟨h, t, ht, _⟩ := intText_head n
      rw [hx] at ht
      cases ht
    | cons c cs =>
      refine ⟨c, cs, by simp [valueText, hx], ?_⟩
      have := intText_plain n c (by rw [hx]; exact List.mem_cons_self _ _)
      intro hc
      subst hc
      revert this
      decide
  | str s => exact absurd rfl (hv s)

theorem valueText_atom_inj (v w : Json) (hv : ∀ s, v ≠ .str s) (hw : ∀ s, w ≠ .str s)
    (h : valueText v = valueText w) : v = w := by
  cases v with
  | str s => exact absurd rfl (hv s)
  | null =>
    cases w with
    | str s => exact absurd rfl (hw s)
    | null => rfl
    | bool b => cases b <;> simp [valueText] at h
    | num n =>
      obtain ⟨c, t, ht, h1, _, _⟩ := intText_head n
      simp only [valueText, ht, List.cons.injEq] at h
      exact absurd h.1.symm h1
  | bool a =>
    cases w with
    | str s => exact absurd rfl (hw s)
    | null => cases a <;> simp [valueText] at h
    | bool b => cases a <;> cases b <;> simp [valueText] at h <;> rfl
    | num n =>
      obtain ⟨c, t, ht, _, h2, h3⟩ := intText_head n
      cases a
      · simp only [valueText, ht, List.cons.injEq] at h
        exact absurd h.1.symm h3
      · simp only [valueText, ht, List.cons.injEq] at h
        exact absurd h.1.symm h2
  | num n =>
    obtain ⟨c, t, ht, h1, h2, h3⟩ := intText_head n
    cases w with
    | str s => exact absurd rfl (hw s)
    | null =>
      simp only [valueText, ht, List.cons.injEq] at h
      exact absurd h.1 h1
    | bool b =>
      cases b
      · simp only [valueText, ht, List.cons.injEq] at h
        exact absurd h.1 h3
      · simp only [valueText, ht, List.cons.injEq] at h
        exact absurd h.1 h2
    | num m =>
      simp only [valueText] at h
      rw [intText_inj n m h]

theorem plain_not_delim (c : Char) (h : isPlain c = true) : isDelim c = false := by
  simp only [isPlain, isDelim] at *
  cases h1 : (c == ',') <;> cases h2 : (c == '\x7d') <;> simp_all

/-- Two delimiter-free words, each followed by a delimiter, are equal when the whole
texts are. -/
theorem split_at_delim (x y r1 r2 : List Char)
    (hx : ∀ c ∈ x, isDelim c = false) (hy : ∀ c ∈ y, isDelim c = false)
    (h1 : ∃ d t, r1 = d :: t ∧ isDelim d = true)
    (h2 : ∃ d t, r2 = d :: t ∧ isDelim d = true)
    (h : x ++ r1 = y ++ r2) : x = y ∧ r1 = r2 := by
  induction x generalizing y with
  | nil =>
    cases y with
    | nil => exact ⟨rfl, by simpa using h⟩
    | cons b bs =>
      exfalso
      obtain ⟨d, t, hr, hd⟩ := h1
      rw [hr] at h
      simp only [List.nil_append, List.cons_append, List.cons.injEq] at h
      have := hy b (List.mem_cons_self _ _)
      rw [← h.1, hd] at this
      cases this
  | cons a as ih =>
    cases y with
    | nil =>
      exfalso
      obtain ⟨d, t, hr, hd⟩ := h2
      rw [hr] at h
      simp only [List.nil_append, List.cons_append, List.cons.injEq] at h
      have := hx a (List.mem_cons_self _ _)
      rw [h.1, hd] at this
      cases this
    | cons b bs =>
      simp only [List.cons_append, List.cons.injEq] at h
      obtain ⟨h3, h4⟩ := ih bs (fun c hc => hx c (List.mem_cons_of_mem _ hc))
        (fun c hc => hy c (List.mem_cons_of_mem _ hc)) h.2
      exact ⟨by rw [h.1, h3], h4⟩

theorem valueText_apart (v w : Json) (r1 r2 : List Char)
    (h1 : ∃ d t, r1 = d :: t ∧ isDelim d = true)
    (h2 : ∃ d t, r2 = d :: t ∧ isDelim d = true)
    (h : valueText v ++ r1 = valueText w ++ r2) : v = w ∧ r1 = r2 := by
  by_cases hv : ∃ s, v = .str s
  · obtain ⟨s, rfl⟩ := hv
    by_cases hw : ∃ t, w = .str t
    · obtain ⟨t, rfl⟩ := hw
      obtain ⟨h3, h4⟩ := quote_apart s t r1 r2 h
      exact ⟨by rw [h3], h4⟩
    · exfalso
      obtain ⟨c, t, ht, hc⟩ := valueText_head w (fun s hs => hw ⟨s, hs⟩)
      rw [ht] at h
      simp only [valueText, quote, List.cons_append, List.cons.injEq] at h
      exact hc h.1.symm
  · have hv2 : ∀ s, v ≠ .str s := fun s hs => hv ⟨s, hs⟩
    by_cases hw : ∃ t, w = .str t
    · exfalso
      obtain ⟨t, rfl⟩ := hw
      obtain ⟨c, t2, ht, hc⟩ := valueText_head v hv2
      rw [ht] at h
      simp only [valueText, quote, List.cons_append, List.cons.injEq] at h
      exact hc h.1
    · have hw2 : ∀ s, w ≠ .str s := fun s hs => hw ⟨s, hs⟩
      obtain ⟨h3, h4⟩ := split_at_delim _ _ r1 r2
        (fun c hc => plain_not_delim c (valueText_plain v hv2 c hc))
        (fun c hc => plain_not_delim c (valueText_plain w hw2 c hc)) h1 h2 h
      exact ⟨valueText_atom_inj v w hv2 hw2 h3, h4⟩

theorem membersTail_delim (ms : List (String × Json)) (r : List Char) :
    ∃ d t, membersTail ms ++ r = d :: t ∧ isDelim d = true := by
  cases ms with
  | nil => exact ⟨'\x7d', r, rfl, by decide⟩
  | cons m ms => exact ⟨',', _, rfl, by decide⟩

theorem memberText_apart (m n : String × Json) (a b : List (String × Json))
    (r1 r2 : List Char)
    (h : memberText m ++ (membersTail a ++ r1) = memberText n ++ (membersTail b ++ r2)) :
    m = n ∧ membersTail a ++ r1 = membersTail b ++ r2 := by
  simp only [memberText, List.append_assoc, List.cons_append] at h
  obtain ⟨hk, hrest⟩ := quote_apart m.1 n.1 _ _ h
  simp only [List.cons.injEq, true_and] at hrest
  obtain ⟨hv, ht⟩ := valueText_apart m.2 n.2 _ _ (membersTail_delim a r1)
    (membersTail_delim b r2) hrest
  exact ⟨Prod.ext hk hv, ht⟩

theorem membersTail_apart (a b : List (String × Json)) (r1 r2 : List Char)
    (h : membersTail a ++ r1 = membersTail b ++ r2) : a = b ∧ r1 = r2 := by
  induction a generalizing b with
  | nil =>
    cases b with
    | nil => exact ⟨rfl, by simpa [membersTail] using h⟩
    | cons n ns =>
      simp only [membersTail, List.cons_append, List.cons.injEq] at h
      exact absurd h.1 (by decide)
  | cons m ms ih =>
    cases b with
    | nil =>
      simp only [membersTail, List.cons_append, List.cons.injEq] at h
      exact absurd h.1 (by decide)
    | cons n ns =>
      simp only [membersTail, List.cons_append, List.cons.injEq, true_and,
        List.append_assoc] at h
      obtain ⟨h3, h4⟩ := memberText_apart m n ms ns r1 r2 h
      obtain ⟨h5, h6⟩ := ih ns h4
      exact ⟨by rw [h3, h5], h6⟩

theorem recordText_apart (a b : HubRecord) (r1 r2 : List Char)
    (h : recordText a ++ r1 = recordText b ++ r2) : a = b ∧ r1 = r2 := by
  cases a with
  | nil =>
    cases b with
    | nil => exact ⟨rfl, by simpa [recordText] using h⟩
    | cons n ns =>
      simp only [recordText, memberText, quote, List.cons_append, List.cons.injEq,
        true_and] at h
      exact absurd h.1 (by decide)
  | cons m ms =>
    cases b with
    | nil =>
      simp only [recordText, memberText, quote, List.cons_append, List.cons.injEq,
        true_and] at h
      exact absurd h.1 (by decide)
    | cons n ns =>
      simp only [recordText, List.cons_append, List.cons.injEq, true_and,
        List.append_assoc] at h
      obtain ⟨h3, h4⟩ := memberText_apart m n ms ns r1 r2 h
      obtain ⟨h5, h6⟩ := membersTail_apart ms ns r1 r2 h4
      exact ⟨by rw [h3, h5], h6⟩

theorem recordText_head (a : HubRecord) : ∃ t, recordText a = '\x7b' :: t := by
  cases a with
  | nil => exact ⟨_, rfl⟩
  | cons m ms => exact ⟨_, rfl⟩

theorem recordsTail_apart (a b : List HubRecord) (r1 r2 : List Char)
    (h : recordsTail a ++ r1 = recordsTail b ++ r2) : a = b ∧ r1 = r2 := by
  induction a generalizing b with
  | nil =>
    cases b with
    | nil => exact ⟨rfl, by simpa [recordsTail] using h⟩
    | cons n ns =>
      simp only [recordsTail, List.cons_append, List.cons.injEq] at h
      exact absurd h.1 (by decide)
  | cons m ms ih =>
    cases b with
    | nil =>
      simp only [recordsTail, List.cons_append, List.cons.injEq] at h
      exact absurd h.1 (by decide)
    | cons n ns =>
      simp only [recordsTail, List.cons_append, List.cons.injEq, true_and,
        List.append_assoc] at h
      obtain ⟨h3, h4⟩ := recordText_apart m n _ _ h
      obtain ⟨h5, h6⟩ := ih ns h4
      exact ⟨by rw [h3, h5], h6⟩

/-- `JSON.stringify` tells apart any two different lists of hub records. -/
theorem stringify_inj (a b : List HubRecord) (h : stringify a = stringify b) : a = b := by
  have h := congrArg String.data h
  cases a with
  | nil =>
    cases b with
    | nil => rfl
    | cons n ns =>
      obtain ⟨t, ht⟩ := recordText_head n
      simp only [stringify, ht, List.cons_append, List.cons.injEq, true_and] at h
      exact absurd h.1 (by decide)
  | cons m ms =>
    cases b with
    | nil =>
      obtain ⟨t, ht⟩ := recordText_head m
      simp only [stringify, ht, List.cons_append, List.cons.injEq, true_and] at h
      exact absurd h.1 (by decide)
    | cons n ns =>
      simp only [stringify, List.cons.injEq, true_and] at h
      have h2 : recordText m ++ (recordsTail ms ++ [])
          = recordText n ++ (recordsTail ns ++ []) := by
        simpa using h
      obtain ⟨h3, h4⟩ := recordText_apart m n _ _ h2
      obtain ⟨h5, _⟩ := recordsTail_apart ms ns [] [] h4
      rw [h3, h5]


/-! ## C10 -/

theorem stringify_eq_iff (a b : List HubRecord) : stringify a = stringify b ↔ a = b :=
  ⟨stringify_inj a b, fun h => by rw [h]⟩

/-- The updater keeps `prev` exactly when the two values are equal. -/
theorem updater_eq (prev : Held) (d : Option (List HubRecord)) :
    updater prev d
      = (if prev.value = d.getD [] then prev
         else { value := d.getD [], rev := prev.rev + 1 }) := by
  unfold updater
  by_cases h : prev.value = d.getD []
  · rw [if_pos h, if_pos ((stringify_eq_iff _ _).mpr h)]
  · rw [if_neg h, if_neg (fun hs => h ((stringify_eq_iff _ _).mp hs))]

theorem updater_value (prev : Held) (d : Option (List HubRecord)) :
    (updater prev d).value = d.getD [] := by
  rw [updater_eq]
  by_cases h : prev.value = d.getD []
  · rw [if_pos h, h]
  · rw [if_neg h]

/-- C10: for every held value `prev` and every successful response `d` (a falsy
response counting as the empty list), the updater returns `prev` itself, with no
new reference, when `prev` and `d` are structurally equal, and a new reference
holding `d` otherwise; so the new value always equals `d`, and applying the same
response a second time leaves the held state unchanged. -/
theorem updater_value_equality (prev : Held) (d : Option (List HubRecord)) :
    updater prev d
      = (if prev.value = d.getD [] then prev
         else { value := d.getD [], rev := prev.rev + 1 }) ∧
    (updater prev d).value = d.getD [] ∧
    updater (updater prev d) d = updater prev d := by
  refine ⟨updater_eq prev d, updater_value prev d, ?_⟩
  rw [updater_eq (updater prev d) d, if_pos (updater_value prev d)]

/-! ## C8 -/

/-- C8 (as stated, refuted): with "rice" searched and then the term cleared while
the call is in flight, the late response for "rice" becomes the held results
although the term is empty; and with "oil" searched instead, whose response
arrives first, the late response for "rice" overwrites the results held for
"oil". -/
theorem stale_response_overwrites :
    (run mount.1 [.located 286139 772090, .input "rice", .search, .input "", .search,
        .settle 0 (.resolved (some [[("hubName", .str "Rice Hub")]]))]).1.vendorList.value
      = [[("hubName", .str "Rice Hub")]] ∧
    (run mount.1 [.located 286139 772090, .input "rice", .search, .input "", .search,
        .settle 0 (.resolved (some [[("hubName", .str "Rice Hub")]]))]).1.searchTerm = "" ∧
    (run mount.1 [.located 286139 772090, .input "rice", .search, .input "oil", .search,
        .settle 1 (.resolved (some [[("hubName", .str "Oil Hub")]])),
        .settle 0 (.resolved (some [[("hubName", .str "Rice Hub")]]))]).1.vendorList.value
      = [[("hubName", .str "Rice Hub")]] ∧
    (run mount.1 [.located 286139 772090, .input "rice", .search, .input "oil", .search,
        .settle 1 (.resolved (some [[("hubName", .str "Oil Hub")]])),
        .settle 0 (.resolved (some [[("hubName", .str "Rice Hub")]]))]).1.searchTerm
      = "oil" := by
  decide

/-- C8 (amended): the response of a query A that arrives after a later query B was
issued, or after the term was cleared, is applied like any other response,
whatever term is in force: the held results are left unchanged if and only if A's
data (a falsy response counting as the empty list) is structurally equal to them,
and otherwise they are replaced by A's data. -/
theorem stale_response_is_applied (s : Poller) (i : Nat) (a : Closure)
    (d : Option (List HubRecord)) (hi : s.inflight[i]? = some a) :
    (step s (.settle i (.resolved d))).1.vendorList = updater s.vendorList d ∧
    (step s (.settle i (.resolved d))).1.vendorList.value = d.getD [] ∧
    ((step s (.settle i (.resolved d))).1.vendorList = s.vendorList ↔
      d.getD [] = s.vendorList.value) ∧
    (step s (.settle i (.resolved d))).1.searchTerm = s.searchTerm := by
  have h1 : (step s (.settle i (.resolved d))).1.vendorList = updater s.vendorList d := by
    simp [step, hi, resume]
  have h2 : (step s (.settle i (.resolved d))).1.searchTerm = s.searchTerm := by
    simp [step, hi, resume]
  have hu := updater_eq s.vendorList d
  have hv := updater_value s.vendorList d
  refine ⟨h1, by rw [h1, hv], ?_, h2⟩
  rw [h1]
  constructor
  · intro h
    rw [← hv, h]
  · intro h
    rw [hu, if_pos h.symm]

theorem stale_response_is_applied_witness :
    (step (run mount.1 [.located 286139 772090, .input "rice", .search, .input "",
        .search]).1 (.settle 0 (.resolved (some [[("hubName", .str "Rice Hub")]])))).1.vendorList.value
      = (some [[("hubName", Json.str "Rice Hub")]]).getD [] :=
  (stale_response_is_applied
    (run mount.1 [.located 286139 772090, .input "rice", .search, .input "", .search]).1 0
    ⟨"rice", some 286139, some 772090⟩ (some [[("hubName", .str "Rice Hub")]])
    (by decide)).2.1

/-! ## C9 -/

theorem poller_run_append (s : Poller) (a b : List Event) :
    run s (a ++ b) = ((run (run s a).1 b).1, (run s a).2 ++ (run (run s a).1 b).2) := by
  induction a generalizing s with
  | nil => simp [run]
  | cons e es ih => simp [run, ih, List.append_assoc]

theorem poller_calls_append (a b : List Effect) : calls (a ++ b) = calls a ++ calls b := by
  induction a with
  | nil => simp [calls]
  | cons e es ih => cases e <;> simp [calls, ih]

/-- `fetchVendors` touches neither the term nor the interval. -/
theorem fetchVendors_frame (c : Closure) (s : Poller) :
    (fetchVendors c s).1.searchTerm = s.searchTerm ∧
    (fetchVendors c s).1.interval = s.interval := by
  unfold fetchVendors
  split
  · split <;> simp
  · simp

/-- A fetch whose closure holds a blank term, or lacks a coordinate, issues no call
and empties the results. -/
theorem fetchVendors_blocked (c : Closure) (s : Poller)
    (h : jsTrim c.searchTerm = "" ∨ c.lat = none ∨ c.lon = none) :
    (fetchVendors c s).2 = [] ∧ (fetchVendors c s).1.vendorList.value = [] := by
  unfold fetchVendors
  split
  · rename_i la lo hla hlo
    rcases h with h | h | h
    · simp [h, clearList]
    · rw [hla] at h; cases h
    · rw [hlo] at h; cases h
  · simp [clearList]

/-- A fetch whose closure holds a non-blank term and both coordinates issues exactly
one `NearBy` call for the trimmed term and these coordinates. -/
theorem fetchVendors_issues (c : Closure) (s : Poller) (la lo : Int)
    (ht : jsTrim c.searchTerm ≠ "") (hla : c.lat = some la) (hlo : c.lon = some lo) :
    (fetchVendors c s).2 = [.call (.NearBy (jsTrim c.searchTerm) la lo)] := by
  simp [fetchVendors, hla, hlo, ht]

theorem pollingEffect_blank (s : Poller) (h : jsTrim s.searchTerm = "") :
    (pollingEffect s).2 = [] ∧ (pollingEffect s).1.vendorList.value = [] ∧
    (pollingEffect s).1.interval = none ∧ (pollingEffect s).1.searchTerm = s.searchTerm := by
  have hb := fetchVendors_blocked ⟨s.searchTerm, s.lat, s.lon⟩ { s with interval := none }
    (Or.inl h)
  have hf := fetchVendors_frame ⟨s.searchTerm, s.lat, s.lon⟩ { s with interval := none }
  simp only [pollingEffect, h, if_true]
  exact ⟨hb.1, hb.2, hf.2, hf.1⟩

theorem pollingEffect_fresh (s : Poller) :
    IntervalFresh (pollingEffect s).1 ∧ (pollingEffect s).1.searchTerm = s.searchTerm := by
  have hf := fetchVendors_frame ⟨s.searchTerm, s.lat, s.lon⟩ { s with interval := none }
  by_cases h : jsTrim s.searchTerm = ""
  · obtain ⟨_, _, h3, h4⟩ := pollingEffect_blank s h
    refine ⟨?_, h4⟩
    intro c hc
    rw [h3] at hc
    cases hc
  · simp only [pollingEffect, h, if_false]
    refine ⟨?_, hf.1⟩
    intro c hc
    simp only [Option.some.injEq] at hc
    subst hc
    simp only
    rw [hf.1]
    exact ⟨rfl, h⟩

theorem resume_frame (o : Outcome) (s : Poller) :
    (resume o s).1.searchTerm = s.searchTerm ∧ (resume o s).1.interval = s.interval ∧
    calls (resume o s).2 = [] := by
  cases o <;> simp [resume, calls]

theorem step_fresh (s : Poller) (e : Event) (h : IntervalFresh s) :
    IntervalFresh (step s e).1 := by
  cases e with
  | input v => exact h
  | search =>
    simp only [step]
    split
    · exact h
    · exact (pollingEffect_fresh _).1
  | located la lo =>
    simp only [step]
    split
    · exact h
    · exact (pollingEffect_fresh _).1
  | tick =>
    simp only [step]
    cases hi : s.interval with
    | none => exact h
    | some c =>
      obtain ⟨h1, h2⟩ := fetchVendors_frame c s
      intro c2 hc2
      simp only at hc2
      rw [h2] at hc2
      rw [h1]
      exact h c2 hc2
  | settle i o =>
    simp only [step]
    cases hg : s.inflight[i]? with
    | none => exact h
    | some a =>
      obtain ⟨h1, h2, _⟩ := resume_frame o { s with inflight := s.inflight.eraseIdx i }
      intro c2 hc2
      simp only at hc2
      rw [h2] at hc2
      rw [h1]
      exact h c2 hc2

theorem run_fresh (es : List Event) (s : Poller) (h : IntervalFresh s) :
    IntervalFresh (run s es).1 := by
  induction es generalizing s with
  | nil => exact h
  | cons e es ih => exact ih _ (step_fresh s e h)

theorem mount_fresh : IntervalFresh mount.1 := (pollingEffect_fresh _).1

/-- While the term is blank before and after an event, the event issues no call. -/
theorem step_blank_no_call (s : Poller) (e : Event) (hf : IntervalFresh s)
    (hb : jsTrim s.searchTerm = "") (ha : jsTrim (step s e).1.searchTerm = "") :
    calls (step s e).2 = [] := by
  cases e with
  | input v => rfl
  | search =>
    simp only [step] at ha ⊢
    split
    · rfl
    · rename_i hne
      simp only [hne, if_false] at ha
      rw [(pollingEffect_fresh _).2] at ha
      rw [(pollingEffect_blank _ ha).1]
      rfl
  | located la lo =>
    simp only [step]
    split
    · rfl
    · rw [(pollingEffect_blank { s with lat := some la, lon := some lo } hb).1]
      rfl
  | tick =>
    simp only [step]
    cases hi : s.interval with
    | none => rfl
    | some c => exact absurd hb (hf c hi).2
  | settle i o =>
    simp only [step]
    cases hg : s.inflight[i]? with
    | none => rfl
    | some a => exact (resume_frame o _).2.2

theorem run_blank_no_call (es : List Event) (s : Poller) (hf : IntervalFresh s)
    (hb : jsTrim s.searchTerm = "") (hs : StaysEmpty s es) : calls (run s es).2 = [] := by
  induction es generalizing s with
  | nil => rfl
  | cons e es ih =>
    obtain ⟨h1, h2⟩ := hs
    simp only [run, poller_calls_append]
    rw [step_blank_no_call s e hf hb h1, ih _ (step_fresh s e hf) h1 h2]
    rfl

/-- C9: a fetch, the immediate one of the polling effect or one fired by the
interval, issues a `NearBy` call if and only if the trimmed term of its closure is
non-empty and both coordinates are resolved, and otherwise issues nothing and
empties the results; when the term is blank the polling effect, whose run follows
the cleanup of the previous interval, issues no call, empties the results and
installs no interval; and from mounting on, once the term is blank no `NearBy` call
is issued by any sequence of events for as long as the term stays blank. -/
theorem query_gating_and_cancellation (s : Poller) (c : Closure) :
    ((fetchVendors c s).2 ≠ [] ↔
      (jsTrim c.searchTerm ≠ "" ∧ c.lat ≠ none ∧ c.lon ≠ none)) ∧
    (∀ la lo, jsTrim c.searchTerm ≠ "" → c.lat = some la → c.lon = some lo →
      (fetchVendors c s).2 = [.call (.NearBy (jsTrim c.searchTerm) la lo)]) ∧
    ((jsTrim c.searchTerm = "" ∨ c.lat = none ∨ c.lon = none) →
      (fetchVendors c s).2 = [] ∧ (fetchVendors c s).1.vendorList.value = []) ∧
    (s.interval = some c → step s .tick = fetchVendors c s) ∧
    (pollingEffect s).2
      = (fetchVendors ⟨s.searchTerm, s.lat, s.lon⟩ { s with interval := none }).2 ∧
    (jsTrim s.searchTerm = "" →
      (pollingEffect s).2 = [] ∧ (pollingEffect s).1.vendorList.value = [] ∧
      (pollingEffect s).1.interval = none) ∧
    (∀ es1 es2 : List Event, jsTrim (run mount.1 es1).1.searchTerm = "" →
      StaysEmpty (run mount.1 es1).1 es2 →
      (run mount.1 es1).1.interval = none ∧
      calls (run (run mount.1 es1).1 es2).2 = []) := by
  refine ⟨?_, fetchVendors_issues c s, fetchVendors_blocked c s, ?_, ?_, ?_, ?_⟩
  · constructor
    · intro h
      by_contra hn
      apply h
      apply (fetchVendors_blocked c s _).1
      by_cases h1 : jsTrim c.searchTerm = ""
      · exact Or.inl h1
      · by_cases h2 : c.lat = none
        · exact Or.inr (Or.inl h2)
        · by_cases h3 : c.lon = none
          · exact Or.inr (Or.inr h3)
          · exact absurd ⟨h1, h2, h3⟩ hn
    · rintro ⟨h1, h2, h3⟩
      obtain ⟨la, hla⟩ := Option.ne_none_iff_exists'.mp h2
      obtain ⟨lo, hlo⟩ := Option.ne_none_iff_exists'.mp h3
      rw [fetchVendors_issues c s la lo h1 hla hlo]
      simp
  · intro hi
    simp [step, hi]
  · unfold pollingEffect
    simp only
    split <;> rfl
  · intro hb
    obtain ⟨h1, h2, h3, _⟩ := pollingEffect_blank s hb
    exact ⟨h1, h2, h3⟩
  · intro es1 es2 hb hs
    have hf := run_fresh es1 mount.1 mount_fresh
    refine ⟨?_, run_blank_no_call es2 _ hf hb hs⟩
    cases hi : (run mount.1 es1).1.interval with
    | none => rfl
    | some c2 => exact absurd hb (hf c2 hi).2

theorem query_gating_and_cancellation_witness :
    (fetchVendors ⟨"rice", some 286139, some 772090⟩ mount.1).2
      = [.call (.NearBy (jsTrim "rice") 286139 772090)] ∧
    calls (run (run mount.1 [.located 286139 772090, .input "rice", .search, .input "  ",
        .search]).1 [.tick, .settle 0 (.resolved none), .input " ", .search, .tick]).2 = [] :=
  ⟨(query_gating_and_cancellation mount.1 ⟨"rice", some 286139, some 772090⟩).2.1
      286139 772090 (by decide) rfl rfl,
   ((query_gating_and_cancellation mount.1 ⟨"rice", some 286139, some 772090⟩).2.2.2.2.2.2
      [.located 286139 772090, .input "rice", .search, .input "  ", .search]
      [.tick, .settle 0 (.resolved none), .input " ", .search, .tick]
      (by decide) (by decide)).2⟩

end Nearby

end HukmeeVendor
